import Mathlib

/-!
Verification of the goversion semantic-version bumper.

This file is a shallow embedding, in Lean 4, of the version-bumping
library found in `pkg/` (semver core, generic semver finder/replacer,
orchestrator `Run`/`DryRun`) and of the version-pattern scanner/rewriter
(`FindVersionsInFile`, `FindMainVersionInFile`, `ReplaceVersionInFile`,
`BumpVersionInFile`).

Modelling conventions:
* File contents and all Go strings are embedded as `List Char`
  (abbreviated `Str`).  All file contents of interest are ASCII, so byte
  offsets and character offsets coincide.
* Go standard-library string helpers used by the code
  (`strings.Split`, `strings.SplitN`, `strings.TrimSpace`,
  `strconv.Atoi`, `strconv.Itoa`, `bytes.Replace`, ...) are reimplemented
  here with their documented semantics at the call shapes the code uses
  (single-character separators except where noted).
* The two regular expressions driving the generic finder and the pattern
  scanner are embedded as executable matchers implementing Go's
  regexp (RE2) leftmost-first match semantics.
* Filesystem and git effects are modelled by an explicit `World` record
  that is threaded through the orchestrator functions.
-/

namespace GoVersion

/-- Go strings / byte slices, embedded as lists of characters. -/
abbrev Str := List Char

instance {ε α : Type} [DecidableEq ε] [DecidableEq α] : DecidableEq (Except ε α) :=
  fun x y =>
    match x, y with
    | .error a, .error b =>
      if h : a = b then isTrue (by rw [h])
      else isFalse (fun hh => h (Except.error.inj hh))
    | .error _, .ok _ => isFalse (fun hh => Except.noConfusion hh)
    | .ok _, .error _ => isFalse (fun hh => Except.noConfusion hh)
    | .ok a, .ok b =>
      if h : a = b then isTrue (by rw [h])
      else isFalse (fun hh => h (Except.ok.inj hh))

/-! ## Go string-library primitives -/

/-- Model of `strings.Split(s, sep)` for a one-character separator.
Note `Split("", sep) = [""]`. -/
def goSplit (sep : Char) : Str → List Str
  | [] => [[]]
  | c :: cs =>
    if c = sep then [] :: goSplit sep cs
    else
      match goSplit sep cs with
      | [] => [[c]]
      | h :: t => (c :: h) :: t

/-- Model of `strings.SplitN(s, sep, 2)` for a one-character separator:
the part before the first separator, and (when the separator occurs) the
whole remainder after it. -/
def goSplitN2 (sep : Char) : Str → Str × Option Str
  | [] => ([], none)
  | c :: cs =>
    if c = sep then ([], some cs)
    else
      let r := goSplitN2 sep cs
      (c :: r.1, r.2)

/-- Model of `strings.Join(parts, sep)` for a one-character separator. -/
def goJoinSep (sep : Char) : List Str → Str
  | [] => []
  | [x] => x
  | x :: xs => x ++ sep :: goJoinSep sep xs

/-- Model of `strings.Split(s, sep)` for an arbitrary non-empty separator
(used by `FindMainVersionInFile` to split a match on the version text;
the version text there is never empty, so the empty-separator behaviour
of Go's `Split` is not modelled). -/
def goSplitSubAux (sep : Str) : Nat → Str → List Str
  | 0, _ => [[]]
  | _ + 1, [] => [[]]
  | fuel + 1, c :: cs =>
    if sep.isPrefixOf (c :: cs) ∧ sep ≠ [] then
      [] :: goSplitSubAux sep fuel ((c :: cs).drop sep.length)
    else
      match goSplitSubAux sep fuel cs with
      | [] => [[c]]
      | h :: t => (c :: h) :: t

def goSplitSub (sep s : Str) : List Str := goSplitSubAux sep (s.length + 1) s

/-- Whitespace class trimmed by `strings.TrimSpace` (ASCII part). -/
def isSpaceGo (c : Char) : Bool :=
  c = ' ' || c = '\t' || c = '\n' || c = '\x0b' || c = '\x0c' || c = '\r'

/-- Model of `strings.TrimSpace`. -/
def goTrimSpace (s : Str) : Str :=
  ((s.dropWhile isSpaceGo).reverse.dropWhile isSpaceGo).reverse

/-- Model of `strings.TrimPrefix(s, "v")`. -/
def goTrimPrefixV (s : Str) : Str :=
  match s with
  | 'v' :: rest => rest
  | _ => s

/-- Model of `strings.HasPrefix`. -/
def goHasPrefix (s pre : Str) : Bool := pre.isPrefixOf s

/-- Model of `strings.HasSuffix`. -/
def goHasSuffix (s suf : Str) : Bool := suf.isSuffixOf s

/-- Substring occurrence test: `strings.Contains(s, t)` /
`bytes.Contains`. -/
def goContains (s t : Str) : Bool :=
  if t.isPrefixOf s then true
  else
    match s with
    | [] => false
    | _ :: cs => goContains cs t

/-- Model of `bytes.Replace(s, old, new, 1)`: replace the first
(textually leftmost) occurrence of `old` in `s` by `new`; `s` is
unchanged when `old` does not occur. -/
def goReplaceFirst (s old new : Str) : Str :=
  if old.isPrefixOf s then new ++ s.drop old.length
  else
    match s with
    | [] => []
    | c :: cs => c :: goReplaceFirst cs old new

/-- Numeric value of a big-endian digit string, as Go's
`strconv.Atoi` accumulates it (`n = n*10 + digit`). -/
def digitsToNat (s : Str) : Nat :=
  s.foldl (fun a c => 10 * a + (c.toNat - 48)) 0

/-- Syntactic part of `strconv.Atoi`: optional sign, then one or more
decimal digits and nothing else, without the 64-bit range check
(`goAtoi64` below adds it; this unbounded variant over-approximates the
program's domain, and theorems that depend on the boundary carry
explicit range hypotheses). -/
def goAtoi (s : Str) : Option Int :=
  match s with
  | [] => none
  | c :: rest =>
    if c = '+' then
      if rest ≠ [] ∧ rest.all Char.isDigit then some (digitsToNat rest) else none
    else if c = '-' then
      if rest ≠ [] ∧ rest.all Char.isDigit then some (-(digitsToNat rest : Int)) else none
    else if (c :: rest).all Char.isDigit then some (digitsToNat (c :: rest))
    else none

/-- The smallest value of Go's 64-bit `int`. -/
def int64Min : Int := -9223372036854775808

/-- The largest value of Go's 64-bit `int`. -/
def int64Max : Int := 9223372036854775807

/-- Wrap-around of Go's signed 64-bit `int` arithmetic: Go defines
signed overflow as deterministic two's-complement wrap. -/
def int64Wrap (i : Int) : Int :=
  (i + 9223372036854775808) % 18446744073709551616 - 9223372036854775808

/-- Model of `strconv.Atoi` on a 64-bit platform, including its range
error: a syntactically valid number outside the `int` range yields
`ErrRange`, i.e. a failure. -/
def goAtoi64 (s : Str) : Option Int :=
  match goAtoi s with
  | some n => if int64Min ≤ n ∧ n ≤ int64Max then some n else none
  | none => none

/-- Character for the decimal digit `d`. -/
def digitToChar (d : Nat) : Char := Char.ofNat (48 + d)

/-- Big-endian digit characters of a positive `n` (auxiliary, structural
on a fuel bound so the kernel can evaluate it). -/
def natToStrAux : Nat → Nat → Str
  | 0, _ => []
  | fuel + 1, n =>
    if n = 0 then [] else natToStrAux fuel (n / 10) ++ [digitToChar (n % 10)]

/-- Decimal digits of `n`, big-endian (`fmt.Sprintf` / `strconv.Itoa`
on a non-negative value). -/
def natToStr (n : Nat) : Str :=
  if n = 0 then ['0'] else natToStrAux (n + 1) n

/-- Model of `strconv.Itoa` / `%d` formatting of an integer. -/
def intToStr (i : Int) : Str :=
  if i < 0 then '-' :: natToStr i.natAbs else natToStr i.natAbs

/-! ## Semver core (`normalizeVersion`, `parseSemVer`, `formatSemVer`,
`bumpVersion`) -/

/-- Model of `normalizeVersion`: maps `"dev"` to `"v0.0.0"`, otherwise
ensures a leading `v`. -/
def normalizeVersion (v : Str) : Str :=
  if v = ("dev".data) then ("v0.0.0".data)
  else if goHasPrefix v ("v".data) then v
  else 'v' :: v

/-- Model of `parseSemVer`: strips an optional leading `v`, splits off the
prerelease at the first `-`, and requires the remaining part to be a
dot-separated triple of `strconv.Atoi`-parseable integers. -/
def parseSemVer (version : Str) : Except Str (Int × Int × Int × Str) :=
  let vWithout := goTrimPrefixV version
  let parts := goSplitN2 '-' vWithout
  let numParts := goSplit '.' parts.1
  match numParts with
  | [a, b, c] =>
    match goAtoi a, goAtoi b, goAtoi c with
    | some M, some m, some p => .ok (M, m, p, parts.2.getD [])
    | _, _, _ => .error ("invalid syntax".data)
  | _ => .error ("unexpected version format".data)

/-- Model of `formatSemVer`: canonical `vM.m.p[-prerelease]` form. -/
def formatSemVer (major minor patch : Int) (prerelease : Str) : Str :=
  'v' :: intToStr major ++ '.' :: intToStr minor ++ '.' :: intToStr patch ++
    (if prerelease = [] then [] else '-' :: prerelease)

/-- The `prerelease` directive's transformation of an existing,
non-empty prerelease string: bump the final dot-separated segment if it
parses as an in-range integer (`strconv.Atoi`, with `n++` wrapping like
Go's `int`), otherwise append `.0`. -/
def bumpPrereleaseSegment (prerelease : Str) : Str :=
  let parts := goSplit '.' prerelease
  match parts.getLast? with
  | none => prerelease ++ '.' :: ['0']
  | some lastPart =>
    match goAtoi64 lastPart with
    | some n => goJoinSep '.' (parts.dropLast ++ [intToStr (int64Wrap (n + 1))])
    | none => prerelease ++ '.' :: ['0']

/-- Model of `bumpVersion`: parse, apply the directive, format.  The
`++` increments act on Go's `int` and therefore wrap at the 64-bit
boundary. -/
def bumpVersion (current bump : Str) : Except Str Str :=
  match parseSemVer current with
  | .error e => .error e
  | .ok (major, minor, patch, prerelease) =>
    if bump = ("major".data) then
      .ok (formatSemVer (int64Wrap (major + 1)) 0 0 [])
    else if bump = ("minor".data) then
      .ok (formatSemVer major (int64Wrap (minor + 1)) 0 [])
    else if bump = ("patch".data) then
      .ok (formatSemVer major minor (int64Wrap (patch + 1)) [])
    else if bump = ("premajor".data) then
      .ok (formatSemVer (int64Wrap (major + 1)) 0 0 ['0'])
    else if bump = ("preminor".data) then
      .ok (formatSemVer major (int64Wrap (minor + 1)) 0 ['0'])
    else if bump = ("prepatch".data) then
      .ok (formatSemVer major minor (int64Wrap (patch + 1)) ['0'])
    else if bump = ("prerelease".data) then
      if prerelease ≠ [] then
        .ok (formatSemVer major minor patch (bumpPrereleaseSegment prerelease))
      else
        .ok (formatSemVer major minor (int64Wrap (patch + 1)) ['0'])
    else
      .error ("unknown bump argument".data)

/-! ## Generic semver finder/replacer (`findAndReplaceSemver`)

The finder compiles the unanchored semver.org regular expression

`(0|[1-9]\d*)\.(0|[1-9]\d*)\.(0|[1-9]\d*)`
`(?:-((?:0|[1-9]\d*|\d*[a-zA-Z-][0-9a-zA-Z-]*)`
`(?:\.(?:0|[1-9]\d*|\d*[a-zA-Z-][0-9a-zA-Z-]*))*))?`
`(?:\+([0-9a-zA-Z-]+(?:\.[0-9a-zA-Z-]+)*))?`

with Go's `regexp` package, whose match semantics are leftmost-first.
The matcher below implements that semantics for this fixed expression:
each numeric component is forced (by the mandatory following `.`) to be
the maximal digit run, alternatives are tried in order, and the optional
prerelease/build groups are greedy with nothing mandatory after them, so
no backtracking across groups can occur. -/

/-- Character class `[a-zA-Z-]`. -/
def isAlphaHyph (c : Char) : Bool := c.isAlpha || c = '-'

/-- Character class `[0-9a-zA-Z-]`. -/
def isAlnumHyph (c : Char) : Bool := c.isAlphanum || c = '-'

/-- Match of `0|[1-9]\d*` at the head of `s` (component, rest).  The
surrounding pattern always requires a non-digit right after, so the
greedy run is never shortened; a leading zero is only accepted alone. -/
def semverNum (s : Str) : Option (Str × Str) :=
  let d := s.takeWhile Char.isDigit
  let rest := s.dropWhile Char.isDigit
  match d with
  | [] => none
  | ['0'] => some (['0'], rest)
  | c :: cs => if c = '0' then none else some (c :: cs, rest)

/-- Match of one prerelease identifier
`0|[1-9]\d*|\d*[a-zA-Z-][0-9a-zA-Z-]*` at the head of `s`, first
alternative preferred (leftmost-first; nothing mandatory follows). -/
def semverPreIdent (s : Str) : Option (Str × Str) :=
  match s with
  | [] => none
  | c :: cs =>
    if c = '0' then some (['0'], cs)
    else if c.isDigit then
      some (c :: cs.takeWhile Char.isDigit, cs.dropWhile Char.isDigit)
    else if isAlphaHyph c then
      some (c :: cs.takeWhile isAlnumHyph, cs.dropWhile isAlnumHyph)
    else none

/-- Greedy `(?:\.ident)*` loop of the prerelease group. -/
def semverDotIdents : Nat → Str → Str × Str
  | 0, s => ([], s)
  | fuel + 1, s =>
    match s with
    | '.' :: cs =>
      (match semverPreIdent cs with
       | some (idt, rest) =>
         let r := semverDotIdents fuel rest
         ('.' :: (idt ++ r.1), r.2)
       | none => ([], s))
    | _ => ([], s)

/-- Optional greedy `(?:-(prerelease))?` group. -/
def semverPre (s : Str) : Str × Str :=
  match s with
  | '-' :: cs =>
    (match semverPreIdent cs with
     | some (idt, rest) =>
       let r := semverDotIdents rest.length rest
       ('-' :: (idt ++ r.1), r.2)
     | none => ([], s))
  | _ => ([], s)

/-- Greedy `(?:\.[0-9a-zA-Z-]+)*` loop of the build-metadata group. -/
def semverDotRuns : Nat → Str → Str × Str
  | 0, s => ([], s)
  | fuel + 1, s =>
    match s with
    | '.' :: cs =>
      (let run := cs.takeWhile isAlnumHyph
       if run = [] then ([], s)
       else
         let r := semverDotRuns fuel (cs.dropWhile isAlnumHyph)
         ('.' :: (run ++ r.1), r.2))
    | _ => ([], s)

/-- Optional greedy `(?:\+(build))?` group. -/
def semverBuild (s : Str) : Str × Str :=
  match s with
  | '+' :: cs =>
    (let run := cs.takeWhile isAlnumHyph
     if run = [] then ([], s)
     else
       let r := semverDotRuns (cs.dropWhile isAlnumHyph).length (cs.dropWhile isAlnumHyph)
       ('+' :: (run ++ r.1), r.2))
  | _ => ([], s)

/-- Leftmost-first match of the full unanchored semver expression at the
head of `s`: the matched text and the remaining input. -/
def semverMatchAt (s : Str) : Option (Str × Str) :=
  match semverNum s with
  | none => none
  | some (a, r1) =>
    match r1 with
    | '.' :: r2 =>
      (match semverNum r2 with
       | none => none
       | some (b, r3) =>
         match r3 with
         | '.' :: r4 =>
           (match semverNum r4 with
            | none => none
            | some (c, r5) =>
              let pr := semverPre r5
              let bl := semverBuild pr.2
              some (a ++ '.' :: b ++ '.' :: c ++ pr.1 ++ bl.1, bl.2))
         | _ => none)
    | _ => none

/-- Scanner behind `regexp.FindAllIndex`: successive leftmost
non-overlapping matches, with their start offsets. -/
def semverScan : Nat → Str → Nat → List (Nat × Str)
  | 0, _, _ => []
  | fuel + 1, s, pos =>
    match s with
    | [] => []
    | _ :: cs =>
      match semverMatchAt s with
      | some (m, rest) => (pos, m) :: semverScan fuel rest (pos + m.length)
      | none => semverScan fuel cs (pos + 1)

/-- All matches of the semver regex in `content` (start offset, matched
text), as `FindAllIndex` reports them.  Every match consumes at least
one character, so `length + 1` fuel always suffices. -/
def semverMatches (content : Str) : List (Nat × Str) :=
  semverScan (content.length + 1) content 0

/-- Whether the match starting at `pos` is *not* immediately preceded by
a `v` or `V` character (the condition under which `findAndReplaceSemver`
accepts a match). -/
def notVPreceded (content : Str) (pos : Nat) : Bool :=
  if pos = 0 then true
  else
    match content.get? (pos - 1) with
    | some c => !(c = 'v' || c = 'V')
    | none => true

/-- Model of `findAndReplaceSemver` on file contents: find all semver
matches, select the first one not preceded by `v`/`V`, then replace via
`bytes.Replace(content, matched, new, 1)` — which rewrites the first
*textual* occurrence of the matched string, not necessarily the selected
match's own position. -/
def findAndReplaceSemver (content newVersion : Str) : Except Str Str :=
  if semverMatches content = [] then
    .error ("no semantic version found in file".data)
  else
    match (semverMatches content).find? (fun pm => notVPreceded content pm.1) with
    | none => .error ("no semantic version found in file".data)
    | some pm => .ok (goReplaceFirst content pm.2 newVersion)

/-! ## The pattern scanner's regular-expression engine

All `CommonVersionPatterns` / `MainVersionPatterns` regular expressions
are built from a small syntax compiled by a backtracking matcher that
enumerates candidate matches in exactly the order a leftmost-first
(Go `regexp`) search visits them; the first element is Go's match. -/

inductive RE where
  | eps : RE
  | cls : (Char → Bool) → RE
  | seq : RE → RE → RE
  | alt : RE → RE → RE
  | star : RE → Bool → RE
  | opt : RE → RE
  | grp : Nat → RE → RE
  | eol : RE

/-- Capture list: (group index, start offset, end offset). -/
abbrev Caps := List (Nat × Nat × Nat)

/-- Backtracking matcher in continuation-passing style, implementing
Go's leftmost-first (Perl-style) match semantics: alternatives are tried
left to right, a greedy star prefers one more iteration and a lazy star
prefers none, and a failed continuation backtracks into the previous
choice point.  The result is the first (end offset, captures) the
ordered search finds.  The recursion is structural on `fuel`, which
bounds the depth; zero-width star iterations are cut off (Go's engine
does not loop on them).  Call sites pass `mtchFuel`, which dominates the
depth: non-star nodes nest at most `reSize` deep and every star
iteration consumes at least one input character. -/
def mtch : Nat → RE → Str → Nat → Caps →
    (Str → Nat → Caps → Option (Nat × Caps)) → Option (Nat × Caps)
  | 0, _, _, _, _, _ => none
  | fuel + 1, re, s, pos, caps, k =>
    match re with
    | .eps => k s pos caps
    | .cls p =>
      (match s with
       | c :: cs => if p c then k cs (pos + 1) caps else none
       | [] => none)
    | .eol => if s = [] then k s pos caps else none
    | .seq a b => mtch fuel a s pos caps (fun s1 p1 c1 => mtch fuel b s1 p1 c1 k)
    | .alt a b =>
      (match mtch fuel a s pos caps k with
       | some r => some r
       | none => mtch fuel b s pos caps k)
    | .opt a =>
      (match mtch fuel a s pos caps k with
       | some r => some r
       | none => k s pos caps)
    | .grp i a =>
      mtch fuel a s pos caps (fun s1 p1 c1 => k s1 p1 (c1 ++ [(i, pos, p1)]))
    | .star a lazy =>
      if lazy then
        match k s pos caps with
        | some r => some r
        | none =>
          mtch fuel a s pos caps (fun s1 p1 c1 =>
            if p1 = pos then none else mtch fuel (.star a lazy) s1 p1 c1 k)
      else
        match mtch fuel a s pos caps (fun s1 p1 c1 =>
            if p1 = pos then none else mtch fuel (.star a lazy) s1 p1 c1 k) with
        | some r => some r
        | none => k s pos caps

/-- Node count of a pattern. -/
def reSize : RE → Nat
  | .eps => 1
  | .cls _ => 1
  | .eol => 1
  | .seq a b => reSize a + reSize b + 1
  | .alt a b => reSize a + reSize b + 1
  | .star a _ => reSize a + 1
  | .opt a => reSize a + 1
  | .grp _ a => reSize a + 1

/-- Generous recursion-depth bound for `mtch` on an input of length
`len` (the patterns have no nested stars, so the depth is well below
`reSize * (len + 2)`). -/
def mtchFuel (re : RE) (len : Nat) : Nat := (reSize re + 2) * (len + 2)

/-- Leftmost-first match of `re` at the head of `s` (absolute offset
`pos`): Go's match, as (end offset, captures). -/
def mtchFirst (re : RE) (s : Str) (pos : Nat) : Option (Nat × Caps) :=
  mtch (mtchFuel re s.length) re s pos [] (fun _ p c => some (p, c))

/-- One raw scanner match: span plus captured group spans. -/
structure RawMatch where
  startPos : Nat
  endPos : Nat
  caps : Caps
deriving Repr, DecidableEq

/-- Model of `FindAllStringSubmatchIndex`: scan left to right, taking at
each position the leftmost-first match and resuming after its end (after
one character for a zero-width match, as Go does). -/
def findAllRaw : Nat → RE → Str → Nat → List RawMatch
  | 0, _, _, _ => []
  | fuel + 1, re, s, pos =>
    (match s with
     | [] => []
     | _ :: cs =>
       match mtchFirst re s pos with
       | some r =>
         if r.1 = pos then
           RawMatch.mk pos r.1 r.2 :: findAllRaw fuel re cs (pos + 1)
         else
           RawMatch.mk pos r.1 r.2 :: findAllRaw fuel re (s.drop (r.1 - pos)) r.1
       | none => findAllRaw fuel re cs (pos + 1))

/-- Model of `FindStringSubmatchIndex` for the `^`-anchored main
patterns: the match can only start at offset 0. -/
def findFirstAnchored (re : RE) (line : Str) : Option RawMatch :=
  (mtchFirst re line 0).map fun r => RawMatch.mk 0 r.1 r.2

/-! ### The registered version patterns -/

/-- Go's `\s` (Perl class): `[\t\n\f\r ]`. -/
def isPerlSpace (c : Char) : Bool :=
  c = '\t' || c = '\n' || c = '\x0c' || c = '\r' || c = ' '

/-- Character class `[a-zA-Z0-9.-]` of the scanner's loose prerelease. -/
def isPreChar (c : Char) : Bool := c.isAlphanum || c = '.' || c = '-'

/-- Case-sensitive literal character. -/
def chC (c : Char) : RE := .cls (fun x => x = c)

/-- Case-insensitive literal character (for `(?i)` patterns). -/
def chI (c : Char) : RE := .cls (fun x => x.toLower = c.toLower)

/-- Literal word, case-insensitively when `ci` is set. -/
def strRE (ci : Bool) (s : Str) : RE :=
  s.foldr (fun c r => .seq (if ci then chI c else chC c) r) .eps

/-- Sequencing of a pattern list. -/
def reSeq (rs : List RE) : RE := rs.foldr .seq .eps

/-- Class `r+` (greedy). -/
def plusRE (r : RE) : RE := .seq r (.star r false)

def wsStar : RE := .star (.cls isPerlSpace) false

def wsPlus : RE := plusRE (.cls isPerlSpace)

def digRE : RE := .cls Char.isDigit

/-- Go's `.` : any character except newline. -/
def dotRE : RE := .cls (fun c => c ≠ '\n')

/-- Class `["']`. -/
def quoteRE : RE := .cls (fun c => c = '"' || c = '\x27')

/-- Class `[:=]`. -/
def colonEqRE : RE := .cls (fun c => c = ':' || c = '=')

/-- The scanner's version core `\d+\.\d+\.\d+(?:-[a-zA-Z0-9.-]+)?`. -/
def verCoreRE : RE :=
  reSeq [plusRE digRE, chC '.', plusRE digRE, chC '.', plusRE digRE,
    .opt (.seq (chC '-') (plusRE (.cls isPreChar)))]

/-- `v?(verCore)` with the version in group `g`; under `(?i)` the `v`
matches `V` as well. -/
def verRE (ci : Bool) (g : Nat) : RE :=
  .seq (.opt (if ci then chI 'v' else chC 'v')) (.grp g verCoreRE)

/-- The ten `CommonVersionPatterns`, in registration order. -/
def commonVersionPatterns : List RE := [
  -- ("version"\s*:\s*")v?(ver)(")  — JSON version field
  reSeq [.grp 1 (reSeq [chC '"', strRE false ("version".data), chC '"', wsStar,
      chC ':', wsStar, chC '"']), verRE false 2, .grp 3 (chC '"')],
  -- (?i)(VERSION\s*[:=]\s*["']?)v?(ver)(["']?)  — VERSION assignment
  reSeq [.grp 1 (reSeq [strRE true ("version".data), wsStar, colonEqRE, wsStar,
      .opt quoteRE]), verRE true 2, .grp 3 (.opt quoteRE)],
  -- (@version\s+)v?(ver)  — doc comment version
  reSeq [.grp 1 (reSeq [chC '@', strRE false ("version".data), wsPlus]), verRE false 2],
  -- (<version>)v?(ver)(</version>)  — XML version tag
  reSeq [.grp 1 (strRE false ("<version>".data)), verRE false 2,
    .grp 3 (strRE false ("</version>".data))],
  -- (?i)(version\s*[:=]\s*["']?)v?(ver)(["']?)  — version assignment
  reSeq [.grp 1 (reSeq [strRE true ("version".data), wsStar, colonEqRE, wsStar,
      .opt quoteRE]), verRE true 2, .grp 3 (.opt quoteRE)],
  -- (?i)(#\s*version\s+)v?(ver)  — markdown version header
  reSeq [.grp 1 (reSeq [chC '#', wsStar, strRE true ("version".data), wsPlus]),
    verRE true 2],
  -- (?i)(current\s+version.*?)v?(ver)  — current version text
  reSeq [.grp 1 (reSeq [strRE true ("current".data), wsPlus,
      strRE true ("version".data), .star dotRE true]), verRE true 2],
  -- (@)v?(ver)(\s|$)  — at version
  reSeq [.grp 1 (chC '@'), verRE false 2, .grp 3 (.alt (.cls isPerlSpace) .eol)],
  -- (?i)(install\s+version\s+)v?(ver)  — install version text
  reSeq [.grp 1 (reSeq [strRE true ("install".data), wsPlus,
      strRE true ("version".data), wsPlus]), verRE true 2],
  -- (version\s*=\s*")v?(ver)(")  — TOML version field
  reSeq [.grp 1 (reSeq [strRE false ("version".data), wsStar, chC '=', wsStar,
      chC '"']), verRE false 2, .grp 3 (chC '"')]]

/-- The three `^`-anchored `MainVersionPatterns` (the anchor is realised
by matching only at offset 0); the version digits are group 1. -/
def mainVersionPatterns : List RE := [
  -- ^\s*"version"\s*:\s*"v?(ver)"  — root JSON version field
  reSeq [wsStar, chC '"', strRE false ("version".data), chC '"', wsStar, chC ':',
    wsStar, chC '"', .opt (chC 'v'), .grp 1 verCoreRE, chC '"'],
  -- ^\s*version\s*=\s*"v?(ver)"  — root TOML version field
  reSeq [wsStar, strRE false ("version".data), wsStar, chC '=', wsStar, chC '"',
    .opt (chC 'v'), .grp 1 verCoreRE, chC '"'],
  -- (?i)^\s*VERSION\s*[:=]\s*["']?v?(ver)["']?  — root VERSION assignment
  reSeq [wsStar, strRE true ("version".data), wsStar, colonEqRE, wsStar,
    .opt quoteRE, .opt (chI 'v'), .grp 1 verCoreRE, .opt quoteRE]]

/-! ### `FindVersionsInFile` / `FindMainVersionInFile` -/

/-- Model of the `VersionMatch` struct.  The originating pattern is kept
as its registration index. -/
structure VersionMatch where
  line : Nat
  startIndex : Nat
  endIndex : Nat
  fullMatch : Str
  version : Str
  patIdx : Nat
  prefixText : Str
  suffixText : Str
deriving Repr, DecidableEq

/-- Span of capture group `i`, when the group participated. -/
def capSpan (caps : Caps) (i : Nat) : Option (Nat × Nat) :=
  (caps.find? (fun t => t.1 = i)).map (fun t => t.2)

/-- Substring of `s` from offset `a` (inclusive) to `b` (exclusive). -/
def subStr (s : Str) (a b : Nat) : Str := (s.take b).drop a

/-- Build a `VersionMatch` from a raw scanner match exactly as
`FindVersionsInFile` does: prefix is group 1, version is group 2 with a
leading `v` stripped, suffix is group 3 when the pattern has one. -/
def mkVersionMatch (lineIdx : Nat) (line : Str) (pidx : Nat) (rm : RawMatch) :
    VersionMatch :=
  let pfx := match capSpan rm.caps 1 with | some ab => subStr line ab.1 ab.2 | none => []
  let ver := match capSpan rm.caps 2 with | some ab => subStr line ab.1 ab.2 | none => []
  let sfx := match capSpan rm.caps 3 with | some ab => subStr line ab.1 ab.2 | none => []
  { line := lineIdx + 1, startIndex := rm.startPos, endIndex := rm.endPos,
    fullMatch := subStr line rm.startPos rm.endPos,
    version := goTrimPrefixV ver, patIdx := pidx,
    prefixText := pfx, suffixText := sfx }

/-- Dedup key: the exact (line, start offset, end offset) triple. -/
abbrev SpanKey := Nat × Nat × Nat

/-- All scanner candidates in iteration order: lines outermost, then the
patterns in registration order, then that pattern's matches on the line. -/
def versionCandidates (content : Str) : List (SpanKey × VersionMatch) :=
  (goSplit '\n' content).enum.flatMap fun le =>
    commonVersionPatterns.enum.flatMap fun pe =>
      (findAllRaw (le.2.length + 1) pe.2 le.2 0).map fun rm =>
        ((le.1, rm.startPos, rm.endPos), mkVersionMatch le.1 le.2 pe.1 rm)

/-- One step of the `seen`-map deduplication. -/
def dedupStep (st : List SpanKey × List VersionMatch)
    (cand : SpanKey × VersionMatch) : List SpanKey × List VersionMatch :=
  if cand.1 ∈ st.1 then st else (cand.1 :: st.1, st.2 ++ [cand.2])

/-- Model of `FindVersionsInFile` on file contents. -/
def findVersionsInContent (content : Str) : List VersionMatch :=
  ((versionCandidates content).foldl dedupStep ([], [])).2

/-- Model of `strings.TrimLeft(line, " \t")`. -/
def trimLeftSpaceTab (s : Str) : Str := s.dropWhile (fun c => c = ' ' || c = '\t')

/-- The JSON fallback heuristic: the match's line starts (after
trimming) with `"version"` and has at most two leading blanks. -/
def isTopLevelVersionLine (line : Str) : Bool :=
  goHasPrefix (trimLeftSpaceTab line) ("\x22version\x22".data) &&
  decide (line.length - (trimLeftSpaceTab line).length ≤ 2)

/-- TOML section-header test: trimmed line starts `[` and ends `]`. -/
def isSectionHeader (line : Str) : Bool :=
  goHasPrefix (goTrimSpace line) ("[".data) && goHasSuffix (goTrimSpace line) ("]".data)

/-- The TOML `[package]` lookback, scanning upward from the line above
the match through at most the nine preceding line numbers, stopping at
any other section header. -/
def lookbackAux (lines : List Str) (lineNum : Nat) : Nat → Nat → Bool
  | 0, _ => false
  | fuel + 1, j =>
    if j > 0 ∧ j > lineNum - 10 then
      if goContains (lines.getD (j - 1) []) ("[package]".data) then true
      else if isSectionHeader (lines.getD (j - 1) []) then false
      else lookbackAux lines lineNum fuel (j - 1)
    else false

def lookbackPackage (lines : List Str) (lineNum : Nat) : Bool :=
  lookbackAux lines lineNum 10 (lineNum - 1)

/-- Build the `VersionMatch` that `FindMainVersionInFile` constructs
from a main-pattern match: group 1 is the version; prefix and suffix are
reconstructed by splitting the full match on the version text — only
when the full match contains a double quote. -/
def mkMainVersionMatch (lineIdx : Nat) (line : Str) (pidx : Nat) (rm : RawMatch) :
    VersionMatch :=
  let ver0 := match capSpan rm.caps 1 with | some ab => subStr line ab.1 ab.2 | none => []
  let ver := goTrimPrefixV ver0
  let fullM := subStr line rm.startPos rm.endPos
  let ps :=
    if goContains fullM ['"'] then
      match goSplitSub ver fullM with
      | p0 :: s0 :: _ => (p0, s0)
      | _ => (([] : Str), ([] : Str))
    else ([], [])
  { line := lineIdx + 1, startIndex := rm.startPos, endIndex := rm.endPos,
    fullMatch := fullM, version := ver, patIdx := pidx,
    prefixText := ps.1, suffixText := ps.2 }

/-- First line-ordered main-pattern match over the lines. -/
def findMainRaw (lines : List Str) : Option (Nat × Str × Nat × RawMatch) :=
  (lines.enum.flatMap fun le =>
    mainVersionPatterns.enum.filterMap fun pe =>
      (findFirstAnchored pe.2 le.2).map fun rm => (le.1, le.2, pe.1, rm)).head?

/-- Model of `FindMainVersionInFile` on file contents (the path matters
only through its `.json` / `.toml` suffix). -/
def findMainVersionInContent (filePath content : Str) : Option VersionMatch :=
  let lines := goSplit '\n' content
  match findMainRaw lines with
  | some r => some (mkMainVersionMatch r.1 r.2.1 r.2.2.1 r.2.2.2)
  | none =>
    let ms := findVersionsInContent content
    if ms = [] then none
    else
      let jsonPick : Option VersionMatch :=
        if goHasSuffix filePath (".json".data) then
          ms.find? (fun mt =>
            decide (mt.line ≤ lines.length) &&
            isTopLevelVersionLine (lines.getD (mt.line - 1) []))
        else none
      match jsonPick with
      | some mt => some mt
      | none =>
        let tomlPick : Option VersionMatch :=
          if goHasSuffix filePath (".toml".data) then
            ms.find? (fun mt =>
              decide (mt.line ≤ lines.length) && lookbackPackage lines mt.line)
          else none
        match tomlPick with
        | some mt => some mt
        | none => ms.head?

/-! ### `ReplaceVersionInFile` / `BumpVersionInFile` -/

/-- Rewrite of a single match on its line: the replacement version gets
a `v` exactly when the full matched text contains `"v" + Version`; the
span is replaced by prefix + version + suffix when the recorded offsets
are sane, and the line is left alone otherwise. -/
def rewriteOne (newVersion : Str) (line : Str) (mt : VersionMatch) : Str :=
  let versionToUse :=
    if goContains mt.fullMatch ('v' :: mt.version) then 'v' :: newVersion else newVersion
  if mt.endIndex ≤ line.length ∧ mt.startIndex < mt.endIndex then
    line.take mt.startIndex ++ mt.prefixText ++ versionToUse ++ mt.suffixText ++
      line.drop mt.endIndex
  else line

/-- Stable insertion into a list sorted by descending start offset. -/
def insertDesc (mt : VersionMatch) : List VersionMatch → List VersionMatch
  | [] => [mt]
  | x :: xs => if x.startIndex < mt.startIndex then mt :: x :: xs else x :: insertDesc mt xs

/-- Stable sort by descending start offset (the effect of the bubble
sort in `ReplaceVersionInFile`). -/
def sortDesc (ms : List VersionMatch) : List VersionMatch := ms.foldr insertDesc []

/-- Line numbers in first-occurrence order (grouping by line; the
iteration order over the groups cannot influence the result since each
group rewrites only its own line). -/
def dedupKeepFirstAux : Nat → List Nat → List Nat
  | 0, _ => []
  | fuel + 1, l =>
    match l with
    | [] => []
    | x :: xs => x :: dedupKeepFirstAux fuel (xs.filter (fun y => y ≠ x))

def dedupKeepFirst (l : List Nat) : List Nat := dedupKeepFirstAux (l.length + 1) l

/-- Model of `ReplaceVersionInFile` on file contents: group the matches
by line, sort each line's matches by descending start offset, rewrite
right to left, and reassemble the lines. -/
def replaceVersionInContent (content newVersion : Str) (ms : List VersionMatch) : Str :=
  let lines := goSplit '\n' content
  let newLines := (dedupKeepFirst (ms.map (·.line))).foldl (fun ls ln =>
    if ln > lines.length then ls
    else
      let sorted := sortDesc (ms.filter (fun mt => mt.line = ln))
      ls.set (ln - 1) (sorted.foldl (rewriteOne newVersion) (ls.getD (ln - 1) []))) lines
  goJoinSep '\n' newLines

/-- Model of `BumpVersionInFile` on file contents: `none` when no main
version is found (file untouched), otherwise the rewritten content. -/
def bumpVersionInContent (filePath content newVersion : Str) : Option Str :=
  match findMainVersionInContent filePath content with
  | none => none
  | some mt => some (replaceVersionInContent content newVersion [mt])

/-! ## The filesystem / git world

Filesystem contents and the observable state of git are modelled as an
explicit record threaded through every function that performs IO.  The
behaviour of the external collaborators that are not part of this
repository — the `git` binary (status / describe / add / commit / tag)
and the `golang.org/x/mod` modfile parser and formatter, plus the
`go/parser` package-clause scan of a directory — is supplied by fields
of the world, so the theorems quantify over every possible behaviour of
those collaborators. -/

structure World where
  /-- Assoc list of file path to file content. -/
  files : List (Str × Str)
  /-- Whether `git --version` succeeds. -/
  gitAvailable : Bool
  /-- Output of `git status --porcelain`. -/
  statusOut : Str
  /-- Per-directory stdout of `git describe --tags --abbrev=0`
  (an error when there is no tag or git fails). -/
  describeOut : Str → Except Str Str
  /-- Whether the `git add`/`commit`/`tag` sequence succeeds. -/
  commitOk : Bool
  /-- Recorded commits (message, staged files): git add+commit effect. -/
  commits : List (Str × List Str)
  /-- Recorded tags: git tag effect. -/
  tags : List Str
  /-- Module path extracted by `modfile.Parse` from go.mod contents
  (`none` models both a parse error and a missing module directive). -/
  parseModPath : Str → Option Str
  /-- Output of the modfile AST edit + `Format` given the old go.mod
  content and the new module path. -/
  modFormat : Str → Str → Str
  /-- Package name found by `parser.ParseDir` for a directory, ignoring
  `_test.go` files (`none`: no Go file found or parse error). -/
  dirPkgName : Str → Option Str
  /-- Files reported by `scanSelfImports modDir oldMod newMod`. -/
  selfImportScan : Str → Str → Str → List Str
  /-- Content rewrite performed on one file by `updateSelfImports`. -/
  rewriteImports : Str → Str → Str → Str

/-- Read a file (`os.ReadFile`): `none` is a does-not-exist error. -/
def fsRead (w : World) (path : Str) : Option Str :=
  (w.files.find? (fun pc => pc.1 = path)).map Prod.snd

/-- Write (create or truncate) a file, `os.WriteFile`. -/
def fsWrite (w : World) (path content : Str) : World :=
  { w with files :=
      if w.files.any (fun pc => pc.1 = path) then
        w.files.map (fun pc => if pc.1 = path then (path, content) else pc)
      else w.files ++ [(path, content)] }

/-- Model of `findAndReplaceSemver`'s file access: read the file, apply
the pure find/replace, write back only on success. -/
def findAndReplaceSemverFile (w : World) (path newVersion : Str) :
    World × Except Str Unit :=
  match fsRead w path with
  | none => (w, .error ("failed to read file".data))
  | some content =>
    match findAndReplaceSemver content newVersion with
    | .error e => (w, .error e)
    | .ok out => (fsWrite w path out, .ok ())

/-! ## Orchestrator (`Run` and `DryRun`) -/

/-- Model of `VersionMeta`.  (Go also returns a partially filled meta
alongside an error; only the success value is modelled.) -/
structure VersionMeta where
  oldVersion : Str
  newVersion : Str
  bumpType : Str
  updatedFiles : List Str
deriving Repr, DecidableEq

/-- Model of `filepath.Dir` for the slash-separated paths used here:
everything before the last `/`; `.` when there is no slash, `/` at the
root. -/
def goDirPath (p : Str) : Str :=
  match (goSplitN2 '/' p.reverse).2 with
  | none => (".".data)
  | some rest => if rest = [] then ("/".data) else rest.reverse

/-- Model of `filepath.Join(dir, file)` at the call shapes used here
(including `Clean` dropping a leading `./`). -/
def goJoinPath (dir f : Str) : Str :=
  if dir = (".".data) then f
  else if dir = ("/".data) then '/' :: f
  else dir ++ '/' :: f

/-- Model of `filepath.Abs`: paths in this development are taken to be
already canonical, so `Abs` is the identity (its error path, only hit
when the working directory cannot be determined, is not modelled). -/
def goAbs (p : Str) : Str := p

/-- Model of `checkGit`. -/
def checkGit (w : World) : Except Str Unit :=
  if w.gitAvailable then .ok () else .error ("git is not available on the system".data)

/-- Word character class `\w`. -/
def isWordChar (c : Char) : Bool := c.isAlphanum || c = '_'

/-- Model of the `(?m)^package\s+(\w+)` submatch scan of
`determinePackageName`: the first line start followed by `package`, one
or more `\s` (which may cross line breaks) and a non-empty word run. -/
def findPackageNameAux (data : Str) : Nat → Str → Bool → Option Str
  | 0, _, _ => none
  | fuel + 1, s, atLineStart =>
    match s with
    | [] => none
    | c :: cs =>
      if atLineStart ∧ goHasPrefix (c :: cs) ("package".data) then
        let rest := (c :: cs).drop 7
        let ws := rest.takeWhile isPerlSpace
        let name := (rest.dropWhile isPerlSpace).takeWhile isWordChar
        if ws ≠ [] ∧ name ≠ [] then some name
        else findPackageNameAux data fuel cs (c = '\n')
      else findPackageNameAux data fuel cs (c = '\n')

def goFindPackageName (data : Str) : Option Str :=
  findPackageNameAux data (data.length + 1) data true

/-- Model of `determinePackageName`: a readable file with a `package`
clause wins; otherwise the `parser.ParseDir` oracle; otherwise the
default `version` (which the callers also substitute on error). -/
def determinePackageName (w : World) (path : Str) : Str :=
  match fsRead w path with
  | some data =>
    (match goFindPackageName data with
     | some name => name
     | none => (w.dirPkgName (goDirPath path)).getD ("version".data))
  | none => (w.dirPkgName (goDirPath path)).getD ("version".data)

/-- The fixed file template written by `writeVersionFile`. -/
def versionFileTemplate (pkgName newVersion : Str) : Str :=
  ("package ".data) ++ pkgName ++ ("\n\nvar (\n\tVersion = \x22".data) ++
    newVersion ++ ("\x22\n)\n".data)

/-- Model of `writeVersionFile` (`MkdirAll` has no observable effect in
this model, and `WriteFile` is taken to succeed). -/
def writeVersionFile (w : World) (path newVersion : Str) : World :=
  fsWrite w path (versionFileTemplate (determinePackageName w path) newVersion)

/-- Head-anchored attempt of the `Version\s*=\s*"([^"]+)"` submatch. -/
def extractVersionAt (s : Str) : Option Str :=
  if goHasPrefix s ("Version".data) then
    match (s.drop 7).dropWhile isPerlSpace with
    | '=' :: r2 =>
      (match r2.dropWhile isPerlSpace with
       | '"' :: r4 =>
         let name := r4.takeWhile (fun c => c ≠ '"')
         let rest := r4.dropWhile (fun c => c ≠ '"')
         if name ≠ [] ∧ rest ≠ [] then some name else none
       | _ => none)
    | _ => none
  else none

def extractVersionAux : Nat → Str → Option Str
  | 0, _ => none
  | fuel + 1, s =>
    match extractVersionAt s with
    | some v => some v
    | none =>
      match s with
      | [] => none
      | _ :: cs => extractVersionAux fuel cs

/-- Leftmost `Version\s*=\s*"([^"]+)"` submatch in the file, as
`readCurrentVersion` extracts it. -/
def extractVersion (data : Str) : Option Str :=
  extractVersionAux (data.length + 1) data

/-- Model of `getVersionFromGitDir`: trim the describe output and strip
a leading `v`. -/
def getVersionFromGitDir (w : World) (dir : Str) : Except Str Str :=
  match w.describeOut dir with
  | .error e => .error e
  | .ok out => .ok (goTrimPrefixV (goTrimSpace out))

/-- Model of `readCurrentVersion`: read and extract; when the file does
not exist, seed it from the latest git tag, or with `dev` when that
fails — note this path *writes* the version file. -/
def readCurrentVersion (w : World) (path : Str) : World × Except Str Str :=
  match fsRead w path with
  | some data =>
    (match extractVersion data with
     | some v => (w, .ok v)
     | none => (w, .error ("failed to find version string in file".data)))
  | none =>
    match getVersionFromGitDir w (goDirPath path) with
    | .ok fromGit => (writeVersionFile w path fromGit, .ok fromGit)
    | .error _ => (writeVersionFile w path ("dev".data), .ok ("dev".data))

/-- Model of `gitCommit` (the add/commit/tag failure modes are collapsed
into the single `commitOk` flag; on success the commit and the `v`-tag
are recorded). -/
def gitCommit (w : World) (newVersion : Str) (files : List Str) :
    World × Except Str Unit :=
  if w.commitOk then
    ({ w with commits := w.commits ++ [(newVersion, files)],
              tags := w.tags ++ ['v' :: newVersion] }, .ok ())
  else (w, .error ("git commit failed".data))

/-- Modelled from the external `golang.org/x/mod/semver.IsValid`:
`v`MAJOR[.MINOR[.PATCH]][-PRERELEASE][+BUILD] with no leading zeros on
numbers, dot-separated non-empty `[0-9A-Za-z-]` prerelease identifiers
(numeric ones without leading zeros) and build identifiers. -/
def validPreIdent (s : Str) : Bool :=
  s ≠ [] && s.all isAlnumHyph &&
    (!(s.all Char.isDigit) || s = ['0'] || !(s.head? = some '0'))

def validBuildIdent (s : Str) : Bool := s ≠ [] && s.all isAlnumHyph

def semverIsValid (v : Str) : Bool :=
  match v with
  | 'v' :: rest =>
    let pb := goSplitN2 '+' rest
    let pp := goSplitN2 '-' pb.1
    (match semverNum pp.1 with
     | none => false
     | some (_, r1) =>
       (match r1 with
        | [] => true
        | '.' :: r2 =>
          (match semverNum r2 with
           | none => false
           | some (_, r3) =>
             (match r3 with
              | [] => true
              | '.' :: r4 =>
                (match semverNum r4 with
                 | none => false
                 | some (_, r5) => r5 = [])
              | _ => false))
        | _ => false)) &&
    (match pp.2 with
     | none => true
     | some pre => pre ≠ [] && (goSplit '.' pre).all validPreIdent) &&
    (match pb.2 with
     | none => true
     | some bld => bld ≠ [] && (goSplit '.' bld).all validBuildIdent)
  | _ => false

/-- Modelled from the external `golang.org/x/mod/semver.Major`. -/
def semverMajor (v : Str) : Str :=
  if semverIsValid v then 'v' :: (v.drop 1).takeWhile Char.isDigit else []

/-- Modelled from the external `golang.org/x/mod/module.SplitPathVersion`:
strip a trailing `/vN` (N ≥ 2, no leading zero) major suffix. -/
def splitPathVersionBase (p : Str) : Str :=
  match (goSplitN2 '/' p.reverse).2 with
  | none => p
  | some beforeRev =>
    (match (goSplitN2 '/' p.reverse).1.reverse with
     | 'v' :: ds =>
       if ds ≠ [] ∧ ds.all Char.isDigit ∧ ¬(ds.head? = some '0') ∧ 2 ≤ digitsToNat ds then
         beforeRev.reverse
       else p
     | _ => p)

/-- Model of `locateGoModDir`: walk up from `startDir` until a directory
holding `go.mod` is found. -/
def locateGoModDirAux (w : World) : Nat → Str → Except Unit Str
  | 0, _ => .error ()
  | fuel + 1, d =>
    if (fsRead w (goJoinPath d ("go.mod".data))).isSome then .ok d
    else
      let parent := goDirPath d
      if parent = d then .error ()
      else locateGoModDirAux w fuel parent

def locateGoModDir (w : World) (startDir : Str) : Except Unit Str :=
  locateGoModDirAux w (startDir.length + 2) startDir

/-- Model of `updateGoMod`: read go.mod, parse the module path, compute
the new path (bare for v0/v1, `/vN`-suffixed otherwise) and write the
reformatted file. -/
def updateGoMod (w : World) (modDir newVersion : Str) : World × Except Str Unit :=
  let modPath := goJoinPath modDir ("go.mod".data)
  match fsRead w modPath with
  | none => (w, .error ("reading go.mod".data))
  | some data =>
    match w.parseModPath data with
    | none => (w, .error ("parsing go.mod".data))
    | some mpath =>
      let basePath := splitPathVersionBase mpath
      let maj := semverMajor ('v' :: newVersion)
      let newPath := if maj = ("v0".data) ∨ maj = ("v1".data) then basePath
                     else basePath ++ '/' :: maj
      (fsWrite w modPath (w.modFormat data newPath), .ok ())

/-- Model of `updateSelfImports`: rewrite every file the scan reports
(its error paths are not modelled — they never precede the claims'
guard steps). -/
def updateSelfImports (w : World) (modDir oldMod newMod : Str) :
    World × List Str :=
  let files := w.selfImportScan modDir oldMod newMod
  (files.foldl (fun wa f =>
      fsWrite wa f (w.rewriteImports ((fsRead wa f).getD []) oldMod newMod)) w,
   files)

/-- Paths reported dirty by `git status --porcelain` (lines shorter than
four bytes are skipped; the path is the trimmed text after the two
status columns and the blank). -/
def porcelainPaths (statusOut : Str) : List Str :=
  (goSplit '\n' statusOut).filterMap fun line =>
    if line.length < 4 then none
    else some (goTrimSpace (line.drop 3))

/-- Go's `%v` rendering of a string slice. -/
def goSliceFmt (xs : List Str) : Str := '[' :: goJoinSep ' ' xs ++ [']']

/-- The dirty-working-tree error message. -/
def dirtyMsg (disallowed : List Str) : Str :=
  ("working directory is dirty; uncommitted files not included in commit: ".data) ++
    goSliceFmt disallowed

/-- Model of `checkUncommittedFiles`. -/
def checkUncommittedFiles (w : World) (allowed : List Str) : Except Str Unit :=
  let allowedSet := allowed.map goAbs
  let disallowed := (porcelainPaths w.statusOut).filter
    (fun p => !(allowedSet.contains (goAbs p)))
  if disallowed = [] then .ok () else .error (dirtyMsg disallowed)

/-- The seven bump keywords. -/
def isBumpKeyword (versionArg : Str) : Prop :=
  versionArg = ("major".data) ∨ versionArg = ("minor".data) ∨
  versionArg = ("patch".data) ∨ versionArg = ("premajor".data) ∨
  versionArg = ("preminor".data) ∨ versionArg = ("prepatch".data) ∨
  versionArg = ("prerelease".data)

instance (versionArg : Str) : Decidable (isBumpKeyword versionArg) := by
  unfold isBumpKeyword
  infer_instance

/-- Step 3 of `Run`: determine the new version and the bump type. -/
def runComputeVersion (w : World) (versionFilePath versionArg normalizedCurrent : Str) :
    Except Str (Str × Str) :=
  if isBumpKeyword versionArg then
    match bumpVersion normalizedCurrent versionArg with
    | .error e => .error e
    | .ok bumped => .ok (goTrimPrefixV bumped, versionArg)
  else if versionArg = ("from-git".data) then
    match getVersionFromGitDir w (goDirPath versionFilePath) with
    | .error e => .error e
    | .ok fromGit => .ok (fromGit, ("from-git".data))
  else
    let explicit := if versionArg ≠ ("dev".data) ∧ ¬goHasPrefix versionArg ("v".data)
                    then 'v' :: versionArg else versionArg
    if explicit ≠ ("dev".data) ∧ semverIsValid explicit = false then
      .error ("explicit version is not valid semver".data)
    else .ok (goTrimPrefixV explicit, ("explicit".data))

/-- Step 2 of `DryRun`: determine the new version and the bump type
(the source duplicates the switch of `Run`; it is transcribed here a
second time so that the agreement of the two is a provable fact rather
than a byproduct of sharing one definition). -/
def dryRunComputeVersion (w : World) (versionFilePath versionArg normalizedCurrent : Str) :
    Except Str (Str × Str) :=
  if isBumpKeyword versionArg then
    match bumpVersion normalizedCurrent versionArg with
    | .error e => .error e
    | .ok bumped => .ok (goTrimPrefixV bumped, versionArg)
  else if versionArg = ("from-git".data) then
    match getVersionFromGitDir w (goDirPath versionFilePath) with
    | .error e => .error e
    | .ok fromGit => .ok (fromGit, ("from-git".data))
  else
    let explicit := if versionArg ≠ ("dev".data) ∧ ¬goHasPrefix versionArg ("v".data)
                    then 'v' :: versionArg else versionArg
    if explicit ≠ ("dev".data) ∧ semverIsValid explicit = false then
      .error ("explicit version is not valid semver".data)
    else .ok (goTrimPrefixV explicit, ("explicit".data))

/-- Steps 4–4.5 of `Run`: for a `major` bump, locate go.mod and read the
old module path (`none`: not a major bump, or no go.mod — a soft skip;
errors: go.mod unreadable or unparsable). -/
def runDetectModule (w : World) (versionFilePath bumpType : Str) :
    Except Str (Option (Str × Str)) :=
  if bumpType = ("major".data) then
    match locateGoModDir w (goDirPath versionFilePath) with
    | .error _ => .ok none
    | .ok modDir =>
      match fsRead w (goJoinPath modDir ("go.mod".data)) with
      | none => .error ("reading go.mod".data)
      | some data =>
        match w.parseModPath data with
        | none => .error ("parsing go.mod".data)
        | some oldModPath => .ok (some (modDir, oldModPath))
  else .ok none

/-- Step 6.7 of `Run`: try each bump file through the generic
finder/replacer; a failure is only a warning and the file is skipped,
a success adds the file to the staged list. -/
def runBumpFiles (w : World) (bumpFiles : List Str) (newVersion : Str) :
    World × List Str :=
  bumpFiles.foldl (fun acc bf =>
    match findAndReplaceSemverFile acc.1 bf newVersion with
    | (w2, .error _) => (w2, acc.2)
    | (w2, .ok _) => (w2, acc.2 ++ [bf])) (w, [])

/-- Steps 6.7–7 of `Run`: process the bump files, stage and commit
everything, and assemble the final metadata. -/
def runFinish (w : World) (versionFilePath newVersion : Str)
    (extraFiles bumpFiles : List Str) (modDir : Option Str)
    (rewritten : List Str) (meta0 : VersionMeta) :
    World × Except Str VersionMeta :=
  let rb := runBumpFiles w bumpFiles newVersion
  let filesToCommit := extraFiles ++ [versionFilePath] ++
    (match modDir with
     | some d => [goJoinPath d ("go.mod".data)]
     | none => []) ++ rewritten ++ rb.2
  match gitCommit rb.1 newVersion filesToCommit with
  | (w2, .error e) => (w2, .error e)
  | (w2, .ok _) =>
    (w2, .ok { meta0 with updatedFiles :=
      (match modDir with
       | some d => [goJoinPath d ("go.mod".data)]
       | none => []) ++ [versionFilePath] ++ rewritten ++ rb.2 })

/-- Model of `Run`: check git, read (possibly creating) the current
version, compute the new version, refuse a no-op, detect a major module
change, check the working tree, then write the version file, update
go.mod and self-imports for major bumps, bump the extra files, and
commit. -/
def Run (w : World) (versionFilePath versionArg : Str)
    (extraFiles bumpFiles : List Str) : World × Except Str VersionMeta :=
  match checkGit w with
  | .error e => (w, .error e)
  | .ok _ =>
    let r2 := readCurrentVersion w versionFilePath
    match r2.2 with
    | .error e => (r2.1, .error e)
    | .ok cur =>
      match runComputeVersion r2.1 versionFilePath versionArg (normalizeVersion cur) with
      | .error e => (r2.1, .error e)
      | .ok nv =>
        if nv.1 = cur then
          (r2.1, .error ("new version is the same as the current version".data))
        else
          match runDetectModule r2.1 versionFilePath nv.2 with
          | .error e => (r2.1, .error e)
          | .ok modInfo =>
            match checkUncommittedFiles r2.1 (extraFiles ++ [versionFilePath] ++
              (match modInfo with
               | some md => [goJoinPath md.1 ("go.mod".data)]
               | none => [])) with
            | .error e => (r2.1, .error e)
            | .ok _ =>
              let w2 := writeVersionFile r2.1 versionFilePath nv.1
              let meta0 : VersionMeta :=
                { oldVersion := cur, newVersion := nv.1, bumpType := nv.2,
                  updatedFiles := [] }
              match modInfo with
              | none => runFinish w2 versionFilePath nv.1 extraFiles bumpFiles none [] meta0
              | some md =>
                match updateGoMod w2 md.1 nv.1 with
                | (w3, .error e) => (w3, .error e)
                | (w3, .ok _) =>
                  match fsRead w3 (goJoinPath md.1 ("go.mod".data)) with
                  | none => (w3, .error ("reading go.mod".data))
                  | some data2 =>
                    match w3.parseModPath data2 with
                    | none => (w3, .error ("parsing go.mod".data))
                    | some newModPath =>
                      let us := updateSelfImports w3 md.1 md.2 newModPath
                      runFinish us.1 versionFilePath nv.1 extraFiles bumpFiles
                        (some md.1) us.2 meta0

/-- Model of `DryRun`: read (possibly creating) the current version,
compute the new version, refuse a no-op, and report the candidate file
list — the version file, go.mod and the self-import files for a major
bump, and every bump file that exists — without writes or git
operations. -/
def DryRun (w : World) (versionFilePath versionArg : Str)
    (bumpFiles : List Str) : World × Except Str VersionMeta :=
  let r1 := readCurrentVersion w versionFilePath
  match r1.2 with
  | .error e => (r1.1, .error e)
  | .ok cur =>
    match dryRunComputeVersion r1.1 versionFilePath versionArg (normalizeVersion cur) with
    | .error e => (r1.1, .error e)
    | .ok nv =>
      if nv.1 = cur then
        (r1.1, .error ("new version is the same as the current version".data))
      else
        let files0 := [versionFilePath]
        let files1 :=
          if nv.2 = ("major".data) then
            match locateGoModDir r1.1 (goDirPath versionFilePath) with
            | .error _ => files0
            | .ok modDir =>
              let gomodPath := goJoinPath modDir ("go.mod".data)
              let data := (fsRead r1.1 gomodPath).getD []
              let oldMod := (r1.1.parseModPath data).getD []
              let base := splitPathVersionBase oldMod
              let maj := semverMajor ('v' :: nv.1)
              let newMod := if maj = ("v0".data) ∨ maj = ("v1".data) then base
                            else base ++ '/' :: maj
              (files0 ++ [gomodPath]) ++ r1.1.selfImportScan modDir oldMod newMod
          else files0
        (r1.1, .ok
          { oldVersion := cur, newVersion := nv.1, bumpType := nv.2,
            updatedFiles :=
              files1 ++ bumpFiles.filter (fun bf => (fsRead r1.1 bf).isSome) })

/-! ## Concrete example worlds and data used by the claim theorems -/

/-- Concrete world holding the spec's tag-prefixed example file. -/
def taggedWorld : World where
  files := [(("f.toml".data), ("version = \x22v1.2.3\x22".data))]
  gitAvailable := true
  statusOut := []
  describeOut := fun _ => .error ("no tags".data)
  commitOk := true
  commits := []
  tags := []
  parseModPath := fun _ => none
  modFormat := fun c _ => c
  dirPkgName := fun _ => none
  selfImportScan := fun _ _ _ => []
  rewriteImports := fun c _ _ => c

/-- The span-triple key of a match, as used by the `seen` map
(`line` is stored 1-based in the match, 0-based in the key). -/
def spanKeyOf (vm : VersionMatch) : SpanKey :=
  (vm.line - 1, vm.startIndex, vm.endIndex)

/-- JSON file in which a nested `"version"` field precedes the
top-level one. -/
def jsonNestedFirst : Str :=
  ("\x7b\n  \"config\": \x7b\n    \"version\": \"9.9.9\"\n  \x7d,\n  \"version\": \"1.2.3\"\n\x7d").data

/-- What `BumpVersionInFile` actually produces on `jsonNestedFirst`:
the nested field is rewritten. -/
def jsonNestedFirstActual : Str :=
  ("\x7b\n  \"config\": \x7b\n    \"version\": \"8.8.8\"\n  \x7d,\n  \"version\": \"1.2.3\"\n\x7d").data

/-- What the claim predicts on `jsonNestedFirst`: only the top-level
field rewritten. -/
def jsonNestedFirstClaimed : Str :=
  ("\x7b\n  \"config\": \x7b\n    \"version\": \"9.9.9\"\n  \x7d,\n  \"version\": \"8.8.8\"\n\x7d").data

/-- The spec's example file: top-level `"version"` before the nested
one. -/
def jsonTopFirst : Str :=
  ("\x7b\n  \"version\": \"1.2.3\",\n  \"config\": \x7b\n    \"version\": \"9.9.9\"\n  \x7d\n\x7d").data

/-- The spec's example after the bump: only the top-level field
changed. -/
def jsonTopFirstBumped : Str :=
  ("\x7b\n  \"version\": \"2.0.0\",\n  \"config\": \x7b\n    \"version\": \"9.9.9\"\n  \x7d\n\x7d").data

/-- The main match `FindMainVersionInFile` reports on the one-line file
`version = "1.2.3"` (root TOML pattern, registration index 1). -/
def mainMatchEx : VersionMatch :=
  { line := 1, startIndex := 0, endIndex := 17,
    fullMatch := ("version = \x221.2.3\x22".data),
    version := ("1.2.3".data), patIdx := 1,
    prefixText := ("version = \x22".data), suffixText := ['"'] }

/-- World with a dirty unrelated file and no version file. -/
def dirtyWorld : World where
  files := []
  gitAvailable := true
  statusOut := (" M other.txt".data)
  describeOut := fun _ => .error ("no tags".data)
  commitOk := true
  commits := []
  tags := []
  parseModPath := fun _ => none
  modFormat := fun c _ => c
  dirPkgName := fun _ => none
  selfImportScan := fun _ _ _ => []
  rewriteImports := fun c _ _ => c

/-- The dirty world with the version file present. -/
def guardWorld : World :=
  { dirtyWorld with
    files := [(("version.go".data), versionFileTemplate ("version".data) ("1.2.3".data))] }

/-- World with no files and a clean status, for the dry-run write
counterexample. -/
def dryWorldNoFile : World := { dirtyWorld with statusOut := [] }

/-- Clean world with a version file at `1.2.3` and a bump file that
contains no semantic version. -/
def agreeWorld : World :=
  { dirtyWorld with
    statusOut := [],
    files := [(("version.go".data), versionFileTemplate ("version".data) ("1.2.3".data)),
              (("b.txt".data), ("no version here".data))] }

/-! ## Lemmas about the string primitives -/

theorem digitToChar_toNat (d : Nat) (h : d < 10) : (digitToChar d).toNat = 48 + d := by
  interval_cases d <;> rfl

theorem digitToChar_isDigit (d : Nat) (h : d < 10) : (digitToChar d).isDigit = true := by
  interval_cases d <;> rfl

theorem isDigit_ne_special (c : Char) (h : c.isDigit = true) :
    c ≠ '.' ∧ c ≠ '-' ∧ c ≠ '+' ∧ c ≠ 'v' := by
  refine ⟨?_, ?_, ?_, ?_⟩ <;> (rintro rfl; exact absurd h (by decide))

theorem natToStrAux_eq (fuel n : Nat) (h : n < fuel) :
    natToStrAux fuel n = ((Nat.digits 10 n).map digitToChar).reverse := by
  induction fuel generalizing n with
  | zero => omega
  | succ fuel ih =>
    simp only [natToStrAux]
    by_cases h0 : n = 0
    · subst h0
      simp
    · have hlt := Nat.div_lt_self (Nat.pos_of_ne_zero h0) (by norm_num : 1 < 10)
      rw [if_neg h0, ih (n / 10) (by omega),
        Nat.digits_def' (by norm_num : 1 < 10) (Nat.pos_of_ne_zero h0)]
      simp

theorem natToStr_eq_digits (n : Nat) :
    natToStr n = if n = 0 then ['0'] else ((Nat.digits 10 n).map digitToChar).reverse := by
  unfold natToStr
  by_cases h0 : n = 0
  · simp [h0]
  · rw [if_neg h0, if_neg h0, natToStrAux_eq (n + 1) n (by omega)]

theorem natToStr_ne_nil (n : Nat) : natToStr n ≠ [] := by
  rw [natToStr_eq_digits]
  split
  · simp
  · rename_i h
    simp [Nat.digits_ne_nil_iff_ne_zero, h]

theorem natToStr_all_digits (n : Nat) : ∀ c ∈ natToStr n, c.isDigit = true := by
  intro c hc
  rw [natToStr_eq_digits] at hc
  split at hc
  · simp at hc
    simp [hc]
  · simp only [List.mem_reverse, List.mem_map] at hc
    obtain ⟨d, hd, rfl⟩ := hc
    exact digitToChar_isDigit d (Nat.digits_lt_base (by norm_num) hd)

theorem intToStr_nonneg (i : Int) (h : 0 ≤ i) : intToStr i = natToStr i.natAbs := by
  simp [intToStr, not_lt.mpr h]

theorem intToStr_all_digits (i : Int) (h : 0 ≤ i) :
    ∀ c ∈ intToStr i, c.isDigit = true := by
  rw [intToStr_nonneg i h]
  exact natToStr_all_digits _

theorem digitsToNat_append (a b : Str) :
    digitsToNat (a ++ b) = b.foldl (fun x c => 10 * x + (c.toNat - 48)) (digitsToNat a) := by
  simp [digitsToNat, List.foldl_append]

theorem digitsToNat_rev_map (l : List Nat) (h : ∀ d ∈ l, d < 10) :
    digitsToNat ((l.map digitToChar).reverse) = Nat.ofDigits 10 l := by
  induction l with
  | nil => rfl
  | cons d l ih =>
    have hd : d < 10 := h d (by simp)
    have hrest : ∀ x ∈ l, x < 10 := fun x hx => h x (by simp [hx])
    simp only [List.map_cons, List.reverse_cons, digitsToNat_append]
    rw [ih hrest]
    simp [List.foldl, digitToChar_toNat d hd, Nat.ofDigits_cons]
    ring

theorem digitsToNat_natToStr (n : Nat) : digitsToNat (natToStr n) = n := by
  rw [natToStr_eq_digits]
  split
  · rename_i h
    subst h
    rfl
  · rw [digitsToNat_rev_map _ (fun d hd => Nat.digits_lt_base (by norm_num) hd)]
    exact Nat.ofDigits_digits 10 n

theorem goAtoi_natToStr (n : Nat) : goAtoi (natToStr n) = some (n : Int) := by
  rcases hs : natToStr n with _ | ⟨c, cs⟩
  · exact absurd hs (natToStr_ne_nil n)
  · have hall : ∀ x ∈ natToStr n, x.isDigit = true := natToStr_all_digits n
    have hc : c.isDigit = true := hall c (by rw [hs]; simp)
    obtain ⟨_, _, hplus, _⟩ := isDigit_ne_special c hc
    have hminus : c ≠ '-' := (isDigit_ne_special c hc).2.1
    simp only [goAtoi]
    rw [if_neg hplus, if_neg hminus, if_pos]
    · rw [← hs, digitsToNat_natToStr]
    · rw [← hs]
      simpa [List.all_eq_true] using hall

theorem goAtoi_intToStr (i : Int) : goAtoi (intToStr i) = some i := by
  by_cases h : 0 ≤ i
  · rw [intToStr_nonneg i h, goAtoi_natToStr, Int.natAbs_of_nonneg h]
  · push_neg at h
    have : intToStr i = '-' :: natToStr i.natAbs := by simp [intToStr, h]
    rw [this]
    rcases hs : natToStr i.natAbs with _ | ⟨c, cs⟩
    · exact absurd hs (natToStr_ne_nil _)
    · have hall := natToStr_all_digits i.natAbs
      have hcs : (c :: cs).all Char.isDigit = true := by
        rw [← hs]
        simpa [List.all_eq_true] using hall
      simp only [goAtoi, hcs]
      rw [← hs, digitsToNat_natToStr]
      simp only [reduceIte, ne_eq, reduceCtorEq, not_false_eq_true, and_self, if_pos,
        Option.some.injEq]
      rw [Int.ofNat_natAbs_of_nonpos (le_of_lt h), neg_neg]
      rw [if_neg (show ¬('-' = '+') by decide), if_pos ⟨natToStr_ne_nil _, trivial⟩]

theorem goAtoi_nonneg (s : Str) (n : Int) (h : goAtoi s = some n) (hm : '-' ∉ s) :
    0 ≤ n := by
  rcases s with _ | ⟨c, cs⟩
  · simp [goAtoi] at h
  · simp only [goAtoi] at h
    by_cases hp : c = '+'
    · rw [if_pos hp] at h
      split_ifs at h
      simp only [Option.some.injEq] at h
      omega
    · have hd : c ≠ '-' := fun hh => hm (by simp [hh])
      rw [if_neg hp, if_neg hd] at h
      split_ifs at h
      simp only [Option.some.injEq] at h
      omega

theorem goSplit_ne_nil (sep : Char) (s : Str) : goSplit sep s ≠ [] := by
  cases s with
  | nil => simp [goSplit]
  | cons c cs =>
    simp only [goSplit]
    split
    · simp
    · split <;> simp

theorem goSplit_not_mem (sep : Char) (s : Str) (h : sep ∉ s) : goSplit sep s = [s] := by
  induction s with
  | nil => rfl
  | cons c cs ih =>
    have hc : c ≠ sep := fun hh => h (by simp [hh])
    have hcs : sep ∉ cs := fun hh => h (by simp [hh])
    simp only [goSplit]
    rw [if_neg hc, ih hcs]

theorem goSplit_append (sep : Char) (a b : Str) (h : sep ∉ a) :
    goSplit sep (a ++ sep :: b) = a :: goSplit sep b := by
  induction a with
  | nil => simp [goSplit]
  | cons c cs ih =>
    have hc : c ≠ sep := fun hh => h (by simp [hh])
    have hcs : sep ∉ cs := fun hh => h (by simp [hh])
    simp only [List.cons_append]
    simp only [goSplit]
    rw [if_neg hc, ih hcs]

theorem goJoinSep_goSplit (sep : Char) (s : Str) : goJoinSep sep (goSplit sep s) = s := by
  induction s with
  | nil => rfl
  | cons c cs ih =>
    simp only [goSplit]
    split
    · rename_i hc
      subst hc
      rcases hr : goSplit c cs with _ | ⟨h1, t1⟩
      · exact absurd hr (goSplit_ne_nil c cs)
      · rw [hr] at ih
        cases t1 <;> simp_all [goJoinSep]
    · rcases hr : goSplit sep cs with _ | ⟨h1, t1⟩
      · exact absurd hr (goSplit_ne_nil sep cs)
      · rw [hr] at ih
        cases t1 <;> simp_all [goJoinSep]

theorem goSplit_parts_not_mem (sep : Char) (s : Str) :
    ∀ t ∈ goSplit sep s, sep ∉ t := by
  induction s with
  | nil => intro t ht; simp [goSplit] at ht; simp [ht]
  | cons c cs ih =>
    intro t ht
    unfold goSplit at ht
    split at ht
    · rcases List.mem_cons.mp ht with rfl | hmem
      · simp
      · exact ih t hmem
    · rename_i hc
      rcases hr : goSplit sep cs with _ | ⟨h1, t1⟩
      · exact absurd hr (goSplit_ne_nil sep cs)
      · rw [hr] at ht
        rcases List.mem_cons.mp ht with rfl | hmem
        · intro hmm
          rcases List.mem_cons.mp hmm with rfl | hmm2
          · exact hc rfl
          · exact ih h1 (by rw [hr]; simp) hmm2
        · exact ih t (by rw [hr]; simp [hmem])

theorem goSplitN2_not_mem (sep : Char) (s : Str) (h : sep ∉ s) :
    goSplitN2 sep s = (s, none) := by
  induction s with
  | nil => rfl
  | cons c cs ih =>
    have hc : c ≠ sep := fun hh => h (by simp [hh])
    have hcs : sep ∉ cs := fun hh => h (by simp [hh])
    simp only [goSplitN2]
    rw [if_neg hc, ih hcs]

theorem goSplitN2_append (sep : Char) (a b : Str) (h : sep ∉ a) :
    goSplitN2 sep (a ++ sep :: b) = (a, some b) := by
  induction a with
  | nil => simp [goSplitN2]
  | cons c cs ih =>
    have hc : c ≠ sep := fun hh => h (by simp [hh])
    have hcs : sep ∉ cs := fun hh => h (by simp [hh])
    simp only [List.cons_append]
    simp only [goSplitN2]
    rw [if_neg hc, ih hcs]

theorem goSplitN2_fst_not_mem (sep : Char) (s : Str) : sep ∉ (goSplitN2 sep s).1 := by
  induction s with
  | nil => simp [goSplitN2]
  | cons c cs ih =>
    simp only [goSplitN2]
    split
    · simp
    · rename_i hc
      intro hmem
      rcases List.mem_cons.mp hmem with rfl | hmm
      · exact hc rfl
      · exact ih hmm

theorem goTrimPrefixV_cons (s : Str) : goTrimPrefixV ('v' :: s) = s := rfl

theorem digit_str_no_dash (s : Str) (h : ∀ c ∈ s, c.isDigit = true) : '-' ∉ s := by
  intro hmem
  exact absurd (h '-' hmem) (by decide)

theorem digit_str_no_dot (s : Str) (h : ∀ c ∈ s, c.isDigit = true) : '.' ∉ s := by
  intro hmem
  exact absurd (h '.' hmem) (by decide)

theorem goJoinSep_concat (sep : Char) (xs : List Str) (x : Str) :
    goJoinSep sep (xs ++ [x]) =
      (match xs with
       | [] => x
       | _ :: _ => goJoinSep sep xs ++ sep :: x) := by
  induction xs with
  | nil => rfl
  | cons y ys ih =>
    cases ys with
    | nil => rfl
    | cons z zs =>
      show y ++ sep :: goJoinSep sep ((z :: zs) ++ [x]) = _
      rw [ih]
      simp [goJoinSep]

/-! ## The parse/format round trip and the bump directives -/

/-- Splitting the formatted numeric triple recovers the three
components. -/
theorem goSplit_triple (a b c : Str)
    (hda : ∀ x ∈ a, x.isDigit = true) (hdb : ∀ x ∈ b, x.isDigit = true)
    (hdc : ∀ x ∈ c, x.isDigit = true) :
    goSplit '.' (a ++ '.' :: b ++ '.' :: c) = [a, b, c] := by
  rw [show a ++ '.' :: b ++ '.' :: c = a ++ '.' :: (b ++ '.' :: c) by simp,
    goSplit_append _ _ _ (digit_str_no_dot a hda),
    goSplit_append _ _ _ (digit_str_no_dot b hdb),
    goSplit_not_mem _ _ (digit_str_no_dot c hdc)]

theorem int64Wrap_eq (i : Int) (h1 : int64Min ≤ i) (h2 : i ≤ int64Max) :
    int64Wrap i = i := by
  unfold int64Min at h1
  unfold int64Max at h2
  unfold int64Wrap
  rw [Int.emod_eq_of_lt (by omega) (by omega)]
  omega

theorem int64Wrap_range (i : Int) :
    int64Min ≤ int64Wrap i ∧ int64Wrap i ≤ int64Max := by
  unfold int64Wrap int64Min int64Max
  have h1 : 0 ≤ (i + 9223372036854775808) % 18446744073709551616 :=
    Int.emod_nonneg _ (by norm_num)
  have h2 : (i + 9223372036854775808) % 18446744073709551616 < 18446744073709551616 :=
    Int.emod_lt_of_pos _ (by norm_num)
  omega

theorem int64Wrap_succ_ne (n : Int) (h1 : int64Min ≤ n) (h2 : n ≤ int64Max) :
    int64Wrap (n + 1) ≠ n := by
  by_cases hc : n = int64Max
  · subst hc
    intro hh
    rw [show int64Wrap (int64Max + 1) = int64Min from by decide] at hh
    exact absurd hh (by decide)
  · rw [int64Wrap_eq (n + 1) (by unfold int64Min at h1 ⊢; omega)
      (by unfold int64Max at h2 hc ⊢; omega)]
    omega

theorem goAtoi64_range (s : Str) (n : Int) (h : goAtoi64 s = some n) :
    int64Min ≤ n ∧ n ≤ int64Max := by
  unfold goAtoi64 at h
  rcases hA : goAtoi s with _ | k <;> rw [hA] at h
  · exact absurd h (by simp)
  · simp only [] at h
    by_cases hr : int64Min ≤ k ∧ k ≤ int64Max
    · rw [if_pos hr] at h
      obtain rfl : k = n := Option.some.inj h
      exact hr
    · rw [if_neg hr] at h
      exact absurd h (by simp)

theorem goAtoi64_intToStr (n : Int) (h1 : int64Min ≤ n) (h2 : n ≤ int64Max) :
    goAtoi64 (intToStr n) = some n := by
  unfold goAtoi64
  rw [goAtoi_intToStr]
  show (if int64Min ≤ n ∧ n ≤ int64Max then some n else none) = some n
  rw [if_pos ⟨h1, h2⟩]

/-- Round trip of `parseSemVer` after `formatSemVer` on non-negative
components (helper shared by several claim proofs). -/
theorem parse_format_roundtrip (M m p : Int) (pre : Str)
    (hM : 0 ≤ M) (hm : 0 ≤ m) (hp : 0 ≤ p) :
    parseSemVer (formatSemVer M m p pre) = .ok (M, m, p, pre) := by
  have hdM := intToStr_all_digits M hM
  have hdm := intToStr_all_digits m hm
  have hdp := intToStr_all_digits p hp
  have hnodash : '-' ∉ intToStr M ++ '.' :: intToStr m ++ '.' :: intToStr p := by
    intro hmem
    rcases List.mem_append.mp hmem with h | h
    · rcases List.mem_append.mp h with h | h
      · exact digit_str_no_dash _ hdM h
      · rcases List.mem_cons.mp h with h | h
        · exact absurd h (by decide)
        · exact digit_str_no_dash _ hdm h
    · rcases List.mem_cons.mp h with h | h
      · exact absurd h (by decide)
      · exact digit_str_no_dash _ hdp h
  by_cases hpre : pre = []
  · subst hpre
    have hfmt : formatSemVer M m p [] =
        'v' :: (intToStr M ++ '.' :: intToStr m ++ '.' :: intToStr p) := by
      simp [formatSemVer]
    have h1 : goSplitN2 '-' (intToStr M ++ '.' :: intToStr m ++ '.' :: intToStr p) =
        (intToStr M ++ '.' :: intToStr m ++ '.' :: intToStr p, none) :=
      goSplitN2_not_mem _ _ hnodash
    rw [hfmt]
    simp only [parseSemVer, goTrimPrefixV_cons, h1, goSplit_triple _ _ _ hdM hdm hdp,
      goAtoi_intToStr, Option.getD]
  · have hfmt : formatSemVer M m p pre =
        'v' :: ((intToStr M ++ '.' :: intToStr m ++ '.' :: intToStr p) ++ '-' :: pre) := by
      simp [formatSemVer, hpre]
    have h1 : goSplitN2 '-'
        ((intToStr M ++ '.' :: intToStr m ++ '.' :: intToStr p) ++ '-' :: pre) =
        (intToStr M ++ '.' :: intToStr m ++ '.' :: intToStr p, some pre) :=
      goSplitN2_append _ _ _ hnodash
    rw [hfmt]
    simp only [parseSemVer, goTrimPrefixV_cons, h1, goSplit_triple _ _ _ hdM hdm hdp,
      goAtoi_intToStr, Option.getD]

theorem goSplit_parts_subset (sep : Char) (s : Str) :
    ∀ t ∈ goSplit sep s, ∀ c ∈ t, c ∈ s := by
  induction s with
  | nil =>
    intro t ht c hc
    simp [goSplit] at ht
    simp [ht] at hc
  | cons x cs ih =>
    intro t ht c hc
    simp only [goSplit] at ht
    split at ht
    · rcases List.mem_cons.mp ht with rfl | hmem
      · simp at hc
      · exact List.mem_cons_of_mem _ (ih t hmem c hc)
    · rcases hr : goSplit sep cs with _ | ⟨h1, t1⟩
      · exact absurd hr (goSplit_ne_nil sep cs)
      · rw [hr] at ht
        rcases List.mem_cons.mp ht with rfl | hmem
        · rcases List.mem_cons.mp hc with rfl | hmm
          · simp
          · exact List.mem_cons_of_mem _ (ih h1 (by rw [hr]; simp) c hmm)
        · exact List.mem_cons_of_mem _ (ih t (by rw [hr]; simp [hmem]) c hc)

/-- Components produced by `parseSemVer` are never negative: the
numeric part handed to `Atoi` contains no `-` (a `-` would have started
the prerelease). -/
theorem parseSemVer_nonneg (v : Str) (M m p : Int) (pre : Str)
    (h : parseSemVer v = .ok (M, m, p, pre)) : 0 ≤ M ∧ 0 ≤ m ∧ 0 ≤ p := by
  unfold parseSemVer at h
  dsimp only [] at h
  have hq := goSplitN2_fst_not_mem '-' (goTrimPrefixV v)
  rcases hsp : goSplit '.' (goSplitN2 '-' (goTrimPrefixV v)).1 with _ | ⟨a, _ | ⟨b, _ | ⟨c, _ | _⟩⟩⟩ <;>
    rw [hsp] at h <;> try exact Except.noConfusion h
  have hmem := goSplit_parts_subset '.' (goSplitN2 '-' (goTrimPrefixV v)).1
  rw [hsp] at hmem
  have hna : '-' ∉ a := fun hx => hq (hmem a (by simp) '-' hx)
  have hnb : '-' ∉ b := fun hx => hq (hmem b (by simp) '-' hx)
  have hnc : '-' ∉ c := fun hx => hq (hmem c (by simp) '-' hx)
  replace h :
      (match goAtoi a, goAtoi b, goAtoi c with
        | some M1, some m1, some p1 =>
          Except.ok (M1, m1, p1, (goSplitN2 '-' (goTrimPrefixV v)).2.getD [])
        | _, _, _ => Except.error (("invalid syntax").data)) =
      Except.ok (M, m, p, pre) := h
  rcases hA : goAtoi a with _ | Mv <;> rw [hA] at h
  · exact absurd h (by simp)
  rcases hB : goAtoi b with _ | mv <;> rw [hB] at h
  · exact absurd h (by simp)
  rcases hC : goAtoi c with _ | pv <;> rw [hC] at h
  · exact absurd h (by simp)
  simp only [Except.ok.injEq, Prod.mk.injEq] at h
  obtain ⟨h1, h2, h3, _⟩ := h
  subst h1
  subst h2
  subst h3
  exact ⟨goAtoi_nonneg a Mv hA hna, goAtoi_nonneg b mv hB hnb, goAtoi_nonneg c pv hC hnc⟩

theorem goJoinSep_concat_inj (sep : Char) (xs : List Str) (x y : Str)
    (h : goJoinSep sep (xs ++ [x]) = goJoinSep sep (xs ++ [y])) : x = y := by
  rw [goJoinSep_concat, goJoinSep_concat] at h
  cases xs with
  | nil => exact h
  | cons z zs =>
    have h2 := List.append_cancel_left h
    simpa using h2

theorem parse_distinguishes (v out : Str) (t1 t2 : Int × Int × Int × Str)
    (hv : parseSemVer v = .ok t1) (hout : parseSemVer out = .ok t2) (hne : t2 ≠ t1) :
    out ≠ v := by
  intro he
  rw [he, hv] at hout
  exact hne (Except.ok.inj hout).symm

/-- Evaluation of all seven directives of `bumpVersion` on a parsed
version whose components are below the 64-bit maximum (helper shared by
the C2 and C10 theorems; the prerelease-segment clause keeps the raw
wrapped form, since that increment can still overflow). -/
theorem bumpVersion_eval (v : Str) (M m p : Int) (pre : Str)
    (h : parseSemVer v = .ok (M, m, p, pre))
    (hMt : M < int64Max) (hmt : m < int64Max) (hpt : p < int64Max) :
    bumpVersion v ("major".data) = .ok (formatSemVer (M + 1) 0 0 []) ∧
    bumpVersion v ("minor".data) = .ok (formatSemVer M (m + 1) 0 []) ∧
    bumpVersion v ("patch".data) = .ok (formatSemVer M m (p + 1) []) ∧
    bumpVersion v ("premajor".data) = .ok (formatSemVer (M + 1) 0 0 ['0']) ∧
    bumpVersion v ("preminor".data) = .ok (formatSemVer M (m + 1) 0 ['0']) ∧
    bumpVersion v ("prepatch".data) = .ok (formatSemVer M m (p + 1) ['0']) ∧
    (pre = [] →
      bumpVersion v ("prerelease".data) = .ok (formatSemVer M m (p + 1) ['0'])) ∧
    (pre ≠ [] → ∀ initParts lastPart, goSplit '.' pre = initParts ++ [lastPart] →
      (∀ n : Int, goAtoi64 lastPart = some n →
          bumpVersion v ("prerelease".data) =
            .ok (formatSemVer M m p
              (goJoinSep '.' (initParts ++ [intToStr (int64Wrap (n + 1))])))) ∧
      (goAtoi64 lastPart = none →
          bumpVersion v ("prerelease".data) =
            .ok (formatSemVer M m p (pre ++ '.' :: ['0'])))) := by
  obtain ⟨hM, hm, hp⟩ := parseSemVer_nonneg v M m p pre h
  have hwM : int64Wrap (M + 1) = M + 1 :=
    int64Wrap_eq _ (by unfold int64Min; omega) (by unfold int64Max at hMt ⊢; omega)
  have hwm : int64Wrap (m + 1) = m + 1 :=
    int64Wrap_eq _ (by unfold int64Min; omega) (by unfold int64Max at hmt ⊢; omega)
  have hwp : int64Wrap (p + 1) = p + 1 :=
    int64Wrap_eq _ (by unfold int64Min; omega) (by unfold int64Max at hpt ⊢; omega)
  refine ⟨?_, ?_, ?_, ?_, ?_, ?_, ?_, ?_⟩
  · unfold bumpVersion
    rw [h, ← hwM]
    rfl
  · unfold bumpVersion
    rw [h, ← hwm]
    rfl
  · unfold bumpVersion
    rw [h, ← hwp]
    rfl
  · unfold bumpVersion
    rw [h, ← hwM]
    rfl
  · unfold bumpVersion
    rw [h, ← hwm]
    rfl
  · unfold bumpVersion
    rw [h, ← hwp]
    rfl
  · intro hpre
    subst hpre
    unfold bumpVersion
    rw [h, ← hwp]
    rfl
  · intro hpre initParts lastPart hsplit
    have hbranch : bumpVersion v ("prerelease".data) =
        .ok (formatSemVer M m p (bumpPrereleaseSegment pre)) := by
      unfold bumpVersion
      rw [h]
      show (if pre ≠ [] then Except.ok (formatSemVer M m p (bumpPrereleaseSegment pre))
            else Except.ok (formatSemVer M m (int64Wrap (p + 1)) ['0'])) = _
      rw [if_pos hpre]
    have hseg : bumpPrereleaseSegment pre =
        (match goAtoi64 lastPart with
         | some n => goJoinSep '.' (initParts ++ [intToStr (int64Wrap (n + 1))])
         | none => pre ++ '.' :: ['0']) := by
      unfold bumpPrereleaseSegment
      rw [hsplit]
      simp only [List.getLast?_concat, List.dropLast_concat]
    constructor
    · intro n hn
      rw [hbranch, hseg, hn]
    · intro hn
      rw [hbranch, hseg, hn]

/-- C3 (round trip): `parseSemVer` applied to the output of
`formatSemVer` on non-negative components succeeds and reproduces the
exact component tuple, for every prerelease string. -/
theorem parseSemVer_formatSemVer (M m p : Int) (pre : Str)
    (hM : 0 ≤ M) (hm : 0 ≤ m) (hp : 0 ≤ p) :
    parseSemVer (formatSemVer M m p pre) = .ok (M, m, p, pre) :=
  parse_format_roundtrip M m p pre hM hm hp

/-- C3 witness: the round trip at a concrete version with a prerelease. -/
theorem parseSemVer_formatSemVer_witness :
    (0 : Int) ≤ 1 ∧ parseSemVer (formatSemVer 1 2 3 ("rc.1".data)) = .ok (1, 2, 3, ("rc.1".data)) :=
  ⟨by norm_num, parseSemVer_formatSemVer 1 2 3 ("rc.1".data) (by norm_num) (by norm_num) (by norm_num)⟩

/-- C2 (amended): the effect of each of the seven bump directives on
the parsed components of the current version, for components below the
64-bit `int` maximum (at the maximum the program's increment wraps, see
the counterexample): `major`/`minor`/`patch` increment their field,
zero the lower-significance fields and clear the prerelease; the `pre`
variants do the same but set prerelease `"0"`; `prerelease` bumps the
final dot-separated prerelease segment when it is an in-range integer
below the maximum, appends `.0` otherwise, and falls back to a patch
bump with prerelease `"0"` when no prerelease exists. -/
theorem bumpVersion_directives (v : Str) (M m p : Int) (pre : Str)
    (h : parseSemVer v = .ok (M, m, p, pre))
    (hMt : M < int64Max) (hmt : m < int64Max) (hpt : p < int64Max) :
    bumpVersion v ("major".data) = .ok (formatSemVer (M + 1) 0 0 []) ∧
    bumpVersion v ("minor".data) = .ok (formatSemVer M (m + 1) 0 []) ∧
    bumpVersion v ("patch".data) = .ok (formatSemVer M m (p + 1) []) ∧
    bumpVersion v ("premajor".data) = .ok (formatSemVer (M + 1) 0 0 ['0']) ∧
    bumpVersion v ("preminor".data) = .ok (formatSemVer M (m + 1) 0 ['0']) ∧
    bumpVersion v ("prepatch".data) = .ok (formatSemVer M m (p + 1) ['0']) ∧
    (pre = [] →
      bumpVersion v ("prerelease".data) = .ok (formatSemVer M m (p + 1) ['0'])) ∧
    (pre ≠ [] → ∀ initParts lastPart, goSplit '.' pre = initParts ++ [lastPart] →
      (∀ n : Int, goAtoi64 lastPart = some n → n < int64Max →
          bumpVersion v ("prerelease".data) =
            .ok (formatSemVer M m p (goJoinSep '.' (initParts ++ [intToStr (n + 1)])))) ∧
      (goAtoi64 lastPart = none →
          bumpVersion v ("prerelease".data) =
            .ok (formatSemVer M m p (pre ++ '.' :: ['0'])))) := by
  have hb := bumpVersion_eval v M m p pre h hMt hmt hpt
  refine ⟨hb.1, hb.2.1, hb.2.2.1, hb.2.2.2.1, hb.2.2.2.2.1, hb.2.2.2.2.2.1,
    hb.2.2.2.2.2.2.1, ?_⟩
  intro hpre initParts lastPart hsplit
  obtain ⟨hnum, happ⟩ := hb.2.2.2.2.2.2.2 hpre initParts lastPart hsplit
  refine ⟨?_, happ⟩
  intro n hn hnt
  have hr := goAtoi64_range lastPart n hn
  have hw : int64Wrap (n + 1) = n + 1 :=
    int64Wrap_eq _ (by unfold int64Min at hr ⊢; omega)
      (by unfold int64Max at hr hnt ⊢; omega)
  rw [hnum n hn, hw]

/-- C2 counterexample: at the largest representable major component
(`9223372036854775807`, Go's int64 maximum) the `major` directive does
not increment the field — the program's `major++` wraps to the most
negative `int`, and the emitted string differs from the claim's
`formatSemVer (M+1) 0 0 ""`. -/
theorem bumpVersion_directives_cex :
    parseSemVer ("v9223372036854775807.0.0".data) =
      .ok (9223372036854775807, 0, 0, []) ∧
    bumpVersion ("v9223372036854775807.0.0".data) ("major".data) =
      .ok ("v-9223372036854775808.0.0".data) ∧
    ("v-9223372036854775808.0.0".data) ≠
      formatSemVer (9223372036854775807 + 1) 0 0 [] :=
  ⟨rfl, rfl, by decide⟩

/-- C10 (amended): on any `parseSemVer`-accepted current version whose
components are below the 64-bit `int` maximum, every keyword directive
succeeds, produces a string different from the input, and the result is
again `parseSemVer`-accepted — a keyword bump of such a version can
never hit the no-op guard by itself.  (At the maximum the wrapped
output is rejected by `parseSemVer`, see the counterexample.) -/
theorem bumpVersion_progress (v : Str) (M m p : Int) (pre : Str)
    (h : parseSemVer v = .ok (M, m, p, pre))
    (hMt : M < int64Max) (hmt : m < int64Max) (hpt : p < int64Max) (d : Str)
    (hd : d ∈ [("major".data), ("minor".data), ("patch".data), ("premajor".data),
               ("preminor".data), ("prepatch".data), ("prerelease".data)]) :
    ∃ out, bumpVersion v d = .ok out ∧ out ≠ v ∧ ∃ t, parseSemVer out = .ok t := by
  obtain ⟨hM, hm, hp⟩ := parseSemVer_nonneg v M m p pre h
  have hb := bumpVersion_eval v M m p pre h hMt hmt hpt
  have hM1 : (0 : Int) ≤ M + 1 := by omega
  have hm1 : (0 : Int) ≤ m + 1 := by omega
  have hp1 : (0 : Int) ≤ p + 1 := by omega
  simp only [List.mem_cons, List.not_mem_nil, or_false] at hd
  rcases hd with rfl | rfl | rfl | rfl | rfl | rfl | rfl
  · refine ⟨_, hb.1, ?_, ⟨_, parse_format_roundtrip (M + 1) 0 0 [] hM1 le_rfl le_rfl⟩⟩
    refine parse_distinguishes v _ _ _ h
      (parse_format_roundtrip (M + 1) 0 0 [] hM1 le_rfl le_rfl) ?_
    intro hh
    have h1 : M + 1 = M := congrArg Prod.fst hh
    omega
  · refine ⟨_, hb.2.1, ?_, ⟨_, parse_format_roundtrip M (m + 1) 0 [] hM hm1 le_rfl⟩⟩
    refine parse_distinguishes v _ _ _ h
      (parse_format_roundtrip M (m + 1) 0 [] hM hm1 le_rfl) ?_
    intro hh
    have h1 : m + 1 = m := congrArg (fun t => t.2.1) hh
    omega
  · refine ⟨_, hb.2.2.1, ?_, ⟨_, parse_format_roundtrip M m (p + 1) [] hM hm hp1⟩⟩
    refine parse_distinguishes v _ _ _ h
      (parse_format_roundtrip M m (p + 1) [] hM hm hp1) ?_
    intro hh
    have h1 : p + 1 = p := congrArg (fun t => t.2.2.1) hh
    omega
  · refine ⟨_, hb.2.2.2.1, ?_, ⟨_, parse_format_roundtrip (M + 1) 0 0 ['0'] hM1 le_rfl le_rfl⟩⟩
    refine parse_distinguishes v _ _ _ h
      (parse_format_roundtrip (M + 1) 0 0 ['0'] hM1 le_rfl le_rfl) ?_
    intro hh
    have h1 : M + 1 = M := congrArg Prod.fst hh
    omega
  · refine ⟨_, hb.2.2.2.2.1, ?_, ⟨_, parse_format_roundtrip M (m + 1) 0 ['0'] hM hm1 le_rfl⟩⟩
    refine parse_distinguishes v _ _ _ h
      (parse_format_roundtrip M (m + 1) 0 ['0'] hM hm1 le_rfl) ?_
    intro hh
    have h1 : m + 1 = m := congrArg (fun t => t.2.1) hh
    omega
  · refine ⟨_, hb.2.2.2.2.2.1, ?_, ⟨_, parse_format_roundtrip M m (p + 1) ['0'] hM hm hp1⟩⟩
    refine parse_distinguishes v _ _ _ h
      (parse_format_roundtrip M m (p + 1) ['0'] hM hm hp1) ?_
    intro hh
    have h1 : p + 1 = p := congrArg (fun t => t.2.2.1) hh
    omega
  · by_cases hpre : pre = []
    · subst hpre
      refine ⟨_, hb.2.2.2.2.2.2.1 rfl, ?_,
        ⟨_, parse_format_roundtrip M m (p + 1) ['0'] hM hm hp1⟩⟩
      refine parse_distinguishes v _ _ _ h
        (parse_format_roundtrip M m (p + 1) ['0'] hM hm hp1) ?_
      intro hh
      have h1 : p + 1 = p := congrArg (fun t => t.2.2.1) hh
      omega
    · rcases List.eq_nil_or_concat (goSplit '.' pre) with hnil | ⟨initP, lastP, hsplit⟩
      · exact absurd hnil (goSplit_ne_nil '.' pre)
      rw [List.concat_eq_append] at hsplit
      have hjoin : goJoinSep '.' (initP ++ [lastP]) = pre := by
        rw [← hsplit]
        exact goJoinSep_goSplit '.' pre
      rcases hA : goAtoi64 lastP with _ | n
      · refine ⟨_, ((hb.2.2.2.2.2.2.2 hpre) initP lastP hsplit).2 hA, ?_,
          ⟨_, parse_format_roundtrip M m p (pre ++ '.' :: ['0']) hM hm hp⟩⟩
        refine parse_distinguishes v _ _ _ h
          (parse_format_roundtrip M m p (pre ++ '.' :: ['0']) hM hm hp) ?_
        intro hh
        have h1 : pre ++ '.' :: ['0'] = pre := congrArg (fun t => t.2.2.2) hh
        have hlen := congrArg List.length h1
        simp at hlen
      · refine ⟨_, ((hb.2.2.2.2.2.2.2 hpre) initP lastP hsplit).1 n hA, ?_,
          ⟨_, parse_format_roundtrip M m p _ hM hm hp⟩⟩
        refine parse_distinguishes v _ _ _ h
          (parse_format_roundtrip M m p
            (goJoinSep '.' (initP ++ [intToStr (int64Wrap (n + 1))])) hM hm hp) ?_
        intro hh
        have hpre2 : goJoinSep '.' (initP ++ [intToStr (int64Wrap (n + 1))]) = pre :=
          congrArg (fun t => t.2.2.2) hh
        rw [← hjoin] at hpre2
        have hlast : intToStr (int64Wrap (n + 1)) = lastP :=
          goJoinSep_concat_inj '.' initP _ _ hpre2
        have hrange := goAtoi64_range lastP n hA
        have hA2 : goAtoi64 (intToStr (int64Wrap (n + 1))) = some (int64Wrap (n + 1)) :=
          goAtoi64_intToStr _ (int64Wrap_range _).1 (int64Wrap_range _).2
        rw [hlast, hA] at hA2
        exact int64Wrap_succ_ne n hrange.1 hrange.2 (Option.some.inj hA2).symm

/-- C10 witness: the progress property at `v1.2.3` with directive
`patch`. -/
theorem bumpVersion_progress_witness :
    parseSemVer ("v1.2.3".data) = .ok (1, 2, 3, []) ∧
    (∃ out, bumpVersion ("v1.2.3".data) ("patch".data) = .ok out ∧
      out ≠ ("v1.2.3".data) ∧ ∃ t, parseSemVer out = .ok t) :=
  ⟨by rfl, bumpVersion_progress ("v1.2.3".data) 1 2 3 [] (by rfl)
    (by decide) (by decide) (by decide) ("patch".data) (by decide)⟩

/-- C10 counterexample: at the int64-maximum major component the
`major` directive wraps — `bumpVersion` succeeds and the output differs
from the input, but the output `v-9223372036854775808.0.0` is rejected
by `parseSemVer` itself (the leading `-` of the wrapped component is
taken as the prerelease separator, leaving a one-element dot-triple),
so the bumped string is not parseable, contradicting the claim. -/
theorem bumpVersion_progress_cex :
    parseSemVer ("v9223372036854775807.0.0".data) =
      .ok (9223372036854775807, 0, 0, []) ∧
    bumpVersion ("v9223372036854775807.0.0".data) ("major".data) =
      .ok ("v-9223372036854775808.0.0".data) ∧
    parseSemVer ("v-9223372036854775808.0.0".data) =
      .error ("unexpected version format".data) :=
  ⟨rfl, rfl, rfl⟩

/-! ## Claims about the generic finder/replacer -/

/-- Helper for C8: the pure find/replace errors out whenever every match
is `v`/`V`-preceded (vacuously, also when there is no match). -/
theorem findAndReplaceSemver_all_tagged_content (content newVersion : Str)
    (h : ∀ pm ∈ semverMatches content, notVPreceded content pm.1 = false) :
    findAndReplaceSemver content newVersion =
      .error ("no semantic version found in file".data) := by
  unfold findAndReplaceSemver
  by_cases he : semverMatches content = []
  · rw [if_pos he]
  · rw [if_neg he]
    have hfind : (semverMatches content).find?
        (fun pm => notVPreceded content pm.1) = none := by
      rw [List.find?_eq_none]
      intro x hx
      simp [h x hx]
    rw [hfind]

/-- C1 (failing-input evaluation): on the file `"v1.2.3 1.2.3"` the
finder skips the `v`-tagged match at offset 1 and selects the bare match
at offset 7, but `bytes.Replace(content, "1.2.3", new, 1)` then rewrites
the first *textual* occurrence — the tagged one it just skipped.  The
result is `"v9.9.9 1.2.3"`, not the `"v1.2.3 9.9.9"` that the claim (and
the function's own comment, "Replace only the first valid occurrence")
describes. -/
theorem findAndReplaceSemver_c1_eval :
    semverMatches ("v1.2.3 1.2.3".data) = [(1, ("1.2.3".data)), (7, ("1.2.3".data))] ∧
    notVPreceded ("v1.2.3 1.2.3".data) 1 = false ∧
    notVPreceded ("v1.2.3 1.2.3".data) 7 = true ∧
    findAndReplaceSemver ("v1.2.3 1.2.3".data) ("9.9.9".data) =
      .ok ("v9.9.9 1.2.3".data) ∧
    ("v9.9.9 1.2.3".data : Str) ≠ ("v1.2.3 9.9.9".data) := by
  refine ⟨by rfl, by rfl, by rfl, by rfl, by decide⟩

/-- C8: on a file in which every semver match is immediately preceded by
`v` or `V` (and likewise on a file with no semver match at all),
`findAndReplaceSemver` fails with the no-version-found error and the
world — in particular the file — is left completely unchanged. -/
theorem findAndReplaceSemver_tagged_only_error (w : World)
    (path newVersion content : Str)
    (hread : fsRead w path = some content)
    (h : ∀ pm ∈ semverMatches content, notVPreceded content pm.1 = false) :
    findAndReplaceSemverFile w path newVersion =
      (w, .error ("no semantic version found in file".data)) := by
  unfold findAndReplaceSemverFile
  rw [hread]
  show (match findAndReplaceSemver content newVersion with
        | Except.error e => (w, Except.error e)
        | Except.ok out => (fsWrite w path out, Except.ok ())) = _
  rw [findAndReplaceSemver_all_tagged_content content newVersion h]

/-- C8 witness: the theorem applied to the spec's
`version = "v1.2.3"` example. -/
theorem findAndReplaceSemver_tagged_only_error_witness :
    (∀ pm ∈ semverMatches ("version = \x22v1.2.3\x22".data),
      notVPreceded ("version = \x22v1.2.3\x22".data) pm.1 = false) ∧
    findAndReplaceSemverFile taggedWorld ("f.toml".data) ("2.0.0".data) =
      (taggedWorld, .error ("no semantic version found in file".data)) :=
  ⟨by decide,
   findAndReplaceSemver_tagged_only_error taggedWorld ("f.toml".data) ("2.0.0".data)
     ("version = \x22v1.2.3\x22".data) rfl (by decide)⟩

/-! ## Claims about the pattern scanner and rewriter -/

theorem goContains_iff (s t : Str) : goContains s t = true ↔ ∃ a b, s = a ++ t ++ b := by
  induction s with
  | nil =>
    unfold goContains
    constructor
    · intro h
      split at h
      · rename_i hpre
        have : t = [] := by
          rcases List.isPrefixOf_iff_prefix.mp hpre with ⟨b, hb⟩
          cases t <;> simp_all
        exact ⟨[], [], by simp [this]⟩
      · exact absurd h (by simp)
    · rintro ⟨a, b, hab⟩
      have ha : a = [] ∧ t = [] ∧ b = [] := by
        constructor
        · cases a <;> simp_all
        constructor
        · cases a <;> cases t <;> simp_all
        · cases a <;> cases t <;> cases b <;> simp_all
      rw [if_pos (by simp [ha.2.1])]
  | cons c cs ih =>
    unfold goContains
    by_cases hpre : t.isPrefixOf (c :: cs)
    · rw [if_pos hpre]
      simp only [true_iff]
      rcases List.isPrefixOf_iff_prefix.mp hpre with ⟨b, hb⟩
      exact ⟨[], b, by simp [← hb]⟩
    · rw [if_neg hpre]
      rw [ih]
      constructor
      · rintro ⟨a, b, hab⟩
        exact ⟨c :: a, b, by simp [hab]⟩
      · rintro ⟨a, b, hab⟩
        rcases a with _ | ⟨a0, a'⟩
        · exfalso
          apply hpre
          apply List.isPrefixOf_iff_prefix.mpr
          exact ⟨b, by simpa using hab.symm⟩
        · simp only [List.cons_append, List.cons.injEq] at hab
          exact ⟨a', b, hab.2⟩

theorem versionCandidates_key (content : Str) :
    ∀ c ∈ versionCandidates content, c.1 = spanKeyOf c.2 := by
  intro c hc
  simp only [versionCandidates, List.mem_flatMap, List.mem_map] at hc
  obtain ⟨le, _, pe, _, rm, _, rfl⟩ := hc
  rfl

theorem dedup_fold_invariant (cands : List (SpanKey × VersionMatch))
    (hc : ∀ c ∈ cands, c.1 = spanKeyOf c.2) :
    ∀ st : List SpanKey × List VersionMatch,
      (∀ vm ∈ st.2, spanKeyOf vm ∈ st.1) →
      st.2.Pairwise (fun a b => spanKeyOf a ≠ spanKeyOf b) →
      (∀ vm ∈ (cands.foldl dedupStep st).2, spanKeyOf vm ∈ (cands.foldl dedupStep st).1) ∧
      ((cands.foldl dedupStep st).2).Pairwise (fun a b => spanKeyOf a ≠ spanKeyOf b) := by
  induction cands with
  | nil =>
    intro st h1 h2
    exact ⟨h1, h2⟩
  | cons c cs ih =>
    intro st h1 h2
    simp only [List.foldl_cons]
    have hck : c.1 = spanKeyOf c.2 := hc c (by simp)
    apply ih (fun x hx => hc x (by simp [hx]))
    · unfold dedupStep
      split
      · exact h1
      · intro vm hvm
        rcases List.mem_append.mp hvm with hmem | hmem
        · exact List.mem_cons_of_mem _ (h1 vm hmem)
        · simp only [List.mem_singleton] at hmem
          subst hmem
          rw [← hck]
          exact List.mem_cons_self _ _
    · unfold dedupStep
      split
      · exact h2
      · rename_i hnin
        rw [List.pairwise_append]
        refine ⟨h2, by simp, ?_⟩
        intro a ha b hb
        simp only [List.mem_singleton] at hb
        subst hb
        intro heq
        exact hnin (by rw [hck, ← heq]; exact h1 a ha)

/-- C6: the scanner never reports two matches with the identical
(line, start offset, end offset) triple — the `seen` map keeps only the
first pattern's match for a span — yet the same semantic version
occurring on one line through two different spans is reported once per
span, as on the spec's `Current version: v2.1.0` example where the
`VERSION`-assignment span and the `current version` span carry the same
version `2.1.0`. -/
theorem findVersionsInFile_span_dedup :
    (∀ content : Str, (findVersionsInContent content).Pairwise
      (fun a b => ¬(a.line = b.line ∧ a.startIndex = b.startIndex ∧
        a.endIndex = b.endIndex))) ∧
    (findVersionsInContent ("Current version: v2.1.0".data)).map
        (fun m => (m.line, m.startIndex, m.endIndex, m.version)) =
      [(1, 8, 23, ("2.1.0".data)), (1, 0, 23, ("2.1.0".data))] := by
  constructor
  · intro content
    have hinv := dedup_fold_invariant (versionCandidates content)
      (versionCandidates_key content) ([], []) (by simp) (by simp)
    have hpw := hinv.2
    unfold findVersionsInContent
    refine List.Pairwise.imp ?_ hpw
    intro a b hab ⟨hl, hs, he⟩
    exact hab (by simp [spanKeyOf, hl, hs, he])
  · decide

/-- C7 helper: what the single-match rewrite emits, with the `v`
decision stated as the existence of an occurrence of `"v" + version`
inside the originally matched text. -/
theorem rewriteOne_emits (line : Str) (mt : VersionMatch) (newVersion : Str)
    (hend : mt.endIndex ≤ line.length) (hlt : mt.startIndex < mt.endIndex) :
    rewriteOne newVersion line mt =
      line.take mt.startIndex ++ mt.prefixText ++
        (if goContains mt.fullMatch ('v' :: mt.version) then 'v' :: newVersion
         else newVersion) ++ mt.suffixText ++ line.drop mt.endIndex := by
  unfold rewriteOne
  rw [if_pos ⟨hend, hlt⟩]

/-- C7: for every match record and new version, the rewriter emits the
replacement with a leading `v` exactly when the matched text contains an
occurrence of the version immediately preceded by `v`; on the concrete
two-line file the `v`-tagged occurrence keeps its tag and the bare one
stays bare — the decision is per occurrence, never global. -/
theorem replaceVersion_tag_preserving :
    (∀ (line : Str) (mt : VersionMatch) (newVersion : Str),
      mt.endIndex ≤ line.length → mt.startIndex < mt.endIndex →
      ((∃ a b, mt.fullMatch = a ++ 'v' :: mt.version ++ b) →
        rewriteOne newVersion line mt =
          line.take mt.startIndex ++ mt.prefixText ++ 'v' :: newVersion ++
            mt.suffixText ++ line.drop mt.endIndex) ∧
      ((¬∃ a b, mt.fullMatch = a ++ 'v' :: mt.version ++ b) →
        rewriteOne newVersion line mt =
          line.take mt.startIndex ++ mt.prefixText ++ newVersion ++
            mt.suffixText ++ line.drop mt.endIndex)) ∧
    replaceVersionInContent ("version: v1.2.3\nversion: 1.2.3".data) ("2.0.0".data)
        (findVersionsInContent ("version: v1.2.3\nversion: 1.2.3".data)) =
      ("version: v2.0.0\nversion: 2.0.0".data) := by
  constructor
  · intro line mt newVersion hend hlt
    constructor
    · intro hex
      rw [rewriteOne_emits line mt newVersion hend hlt,
        if_pos ((goContains_iff _ _).mpr hex)]
    · intro hnex
      rw [rewriteOne_emits line mt newVersion hend hlt, if_neg]
      intro hcon
      exact hnex ((goContains_iff _ _).mp hcon)
  · decide

/-- C7 witness: the general statement applied to the scanner's match on
`version: v1.2.3` (tagged) — hypotheses discharged concretely. -/
theorem replaceVersion_tag_preserving_witness :
    (let mt : VersionMatch :=
      { line := 1, startIndex := 0, endIndex := 15,
        fullMatch := ("version: v1.2.3".data), version := ("1.2.3".data),
        patIdx := 1, prefixText := ("version: ".data), suffixText := [] }
     rewriteOne ("2.0.0".data) ("version: v1.2.3".data) mt =
       ("version: v2.0.0".data)) := by
  have h := (replaceVersion_tag_preserving.1 ("version: v1.2.3".data)
    { line := 1, startIndex := 0, endIndex := 15,
      fullMatch := ("version: v1.2.3".data), version := ("1.2.3".data),
      patIdx := 1, prefixText := ("version: ".data), suffixText := [] }
    ("2.0.0".data) (by decide) (by decide)).1
    ⟨("version: ".data), [], by decide⟩
  simpa using h

/-- C5 counterexample: on a JSON file whose nested `"version"` line
precedes the top-level one, `BumpVersionInFile` rewrites the *nested*
field (the anchored root pattern `^\s*"version"...` matches any
indentation, and the first matching line wins), leaving the top-level
field untouched — contradicting the claim for this file. -/
theorem bumpVersionInFile_c5_counterexample :
    bumpVersionInContent ("x.json".data) jsonNestedFirst ("8.8.8".data) =
      some jsonNestedFirstActual ∧
    jsonNestedFirstActual ≠ jsonNestedFirstClaimed := by
  exact ⟨by decide, by decide⟩

/-- C5 (amended): `BumpVersionInFile` rewrites exactly the single line
holding the main match selected by `FindMainVersionInFile` — every
other line of the file is unchanged; on the spec's example, where the
top-level `"version"` field precedes the nested one, that line is the
top-level field and the nested version is untouched. -/
theorem bumpVersionInFile_main_line_only :
    (∀ filePath content newVersion mt,
      findMainVersionInContent filePath content = some mt →
      mt.line ≤ (goSplit '\n' content).length →
      bumpVersionInContent filePath content newVersion =
        some (goJoinSep '\n' ((goSplit '\n' content).set (mt.line - 1)
          (rewriteOne newVersion ((goSplit '\n' content).getD (mt.line - 1) []) mt)))) ∧
    bumpVersionInContent ("x.json".data) jsonTopFirst ("2.0.0".data) =
      some jsonTopFirstBumped := by
  constructor
  · intro filePath content newVersion mt hmain h2
    unfold bumpVersionInContent
    rw [hmain]
    unfold replaceVersionInContent
    have hfilter : [mt].filter (fun x => x.line = mt.line) = [mt] := by simp
    simp only [List.map_cons, List.map_nil]
    rw [show dedupKeepFirst [mt.line] = [mt.line] from rfl]
    simp only [List.foldl_cons, List.foldl_nil]
    rw [if_neg (not_lt.mpr h2), hfilter]
    rfl
  · decide

/-- C5 witness: the amended theorem applied to the one-line file
`version = "1.2.3"`, whose main match is the root TOML pattern. -/
theorem bumpVersionInFile_main_line_only_witness :
    findMainVersionInContent ("a.txt".data) ("version = \x221.2.3\x22".data) =
      some mainMatchEx ∧
    bumpVersionInContent ("a.txt".data) ("version = \x221.2.3\x22".data) ("2.0.0".data) =
      some (goJoinSep '\n' ((goSplit '\n' ("version = \x221.2.3\x22".data)).set
        (mainMatchEx.line - 1)
        (rewriteOne ("2.0.0".data)
          ((goSplit '\n' ("version = \x221.2.3\x22".data)).getD (mainMatchEx.line - 1) [])
          mainMatchEx))) :=
  ⟨by decide,
   bumpVersionInFile_main_line_only.1 ("a.txt".data) ("version = \x221.2.3\x22".data)
     ("2.0.0".data) mainMatchEx (by decide) (by decide)⟩

/-! ## Claims about the orchestrator -/

/-- C4 counterexample: with the version file absent and an unrelated
dirty file present, `Run` aborts with the dirty-working-tree error, yet
the filesystem *was* modified first — `readCurrentVersion` created the
version file (seeded `dev`) before the dirty check ran. -/
theorem run_dirty_tree_cex :
    Run dirtyWorld ("version.go".data) ("patch".data) [] [] =
      ({ dirtyWorld with
          files := [(("version.go".data), versionFileTemplate ("version".data) ("dev".data))] },
       .error (dirtyMsg [("other.txt".data)])) ∧
    dirtyWorld.files = [] := by
  exact ⟨rfl, rfl⟩

/-- C4 (amended): provided the version file exists and the read,
version-computation, no-op and module-detection steps succeed, a dirty
working tree outside the allowed list (extra files, version file, and
go.mod when a major bump found one) makes `Run` return exactly the
dirty-tree error with the world — files, commits and tags — completely
unchanged: the error is raised before any write or git mutation. -/
theorem run_dirty_tree_guard (w : World) (versionFilePath versionArg : Str)
    (extraFiles bumpFiles : List Str) (content cur : Str)
    (nv : Str × Str) (modInfo : Option (Str × Str)) (e : Str)
    (hgit : w.gitAvailable = true)
    (hfile : fsRead w versionFilePath = some content)
    (hcur : extractVersion content = some cur)
    (hcomp : runComputeVersion w versionFilePath versionArg (normalizeVersion cur) = .ok nv)
    (hnoop : nv.1 ≠ cur)
    (hdetect : runDetectModule w versionFilePath nv.2 = .ok modInfo)
    (hdirty : checkUncommittedFiles w (extraFiles ++ [versionFilePath] ++
      (match modInfo with
       | some md => [goJoinPath md.1 ("go.mod".data)]
       | none => [])) = .error e) :
    Run w versionFilePath versionArg extraFiles bumpFiles = (w, .error e) := by
  have hcg : checkGit w = .ok () := by simp [checkGit, hgit]
  have hread : readCurrentVersion w versionFilePath = (w, .ok cur) := by
    unfold readCurrentVersion
    rw [hfile]
    show (match extractVersion content with
          | some v => (w, Except.ok v)
          | none => (w, Except.error ("failed to find version string in file".data))) = _
    rw [hcur]
  unfold Run
  rw [hcg]
  cases modInfo with
  | none =>
    have hd : checkUncommittedFiles w (extraFiles ++ [versionFilePath] ++ []) =
        .error e := hdirty
    simp only [hread, hcomp, hdetect, if_neg hnoop, hd]
  | some md =>
    have hd : checkUncommittedFiles w (extraFiles ++ [versionFilePath] ++
        [goJoinPath md.1 ("go.mod".data)]) = .error e := hdirty
    simp only [hread, hcomp, hdetect, if_neg hnoop, hd]

/-- C4 witness: the amended theorem at a concrete world whose version
file holds `1.2.3` while `other.txt` is dirty. -/
theorem run_dirty_tree_guard_witness :
    fsRead guardWorld ("version.go".data) =
      some (versionFileTemplate ("version".data) ("1.2.3".data)) ∧
    Run guardWorld ("version.go".data) ("patch".data) [] [] =
      (guardWorld, .error (dirtyMsg [("other.txt".data)])) :=
  ⟨rfl,
   run_dirty_tree_guard guardWorld ("version.go".data) ("patch".data) [] []
     (versionFileTemplate ("version".data) ("1.2.3".data)) ("1.2.3".data)
     (("1.2.4".data), ("patch".data)) none (dirtyMsg [("other.txt".data)])
     rfl rfl (by decide) (by decide) (by decide) (by decide) (by decide)⟩

theorem runFinish_meta (w : World) (vf nvs : Str) (ef bf : List Str)
    (md : Option Str) (rws : List Str) (meta0 metaR : VersionMeta)
    (h : (runFinish w vf nvs ef bf md rws meta0).2 = .ok metaR) :
    metaR.oldVersion = meta0.oldVersion ∧ metaR.newVersion = meta0.newVersion ∧
    metaR.bumpType = meta0.bumpType := by
  unfold runFinish gitCommit at h
  simp only [] at h
  cases hcb : (runBumpFiles w bf nvs).1.commitOk with
  | false => simp [hcb] at h
  | true =>
    simp only [hcb, if_true] at h
    simp only [Except.ok.injEq] at h
    subst h
    simp

/-- C9 counterexample: first, on a world with no version file, `DryRun`
*writes* — it creates the version file seeded with `dev` (via
`readCurrentVersion`); second, on a clean world whose bump file contains
no semantic version, `DryRun` reports the bump file among the files that
would change, while `Run` skips it (no semver found) and leaves it
byte-identical. -/
theorem dryRun_writes_and_overapproximates :
    dryWorldNoFile.files = [] ∧
    (DryRun dryWorldNoFile ("version.go".data) ("patch".data) []).1.files =
      [(("version.go".data), versionFileTemplate ("version".data) ("dev".data))] ∧
    (Run agreeWorld ("version.go".data) ("patch".data) [] [("b.txt".data)]).2 =
      .ok { oldVersion := ("1.2.3".data), newVersion := ("1.2.4".data),
            bumpType := ("patch".data), updatedFiles := [("version.go".data)] } ∧
    (DryRun agreeWorld ("version.go".data) ("patch".data) [("b.txt".data)]).2 =
      .ok { oldVersion := ("1.2.3".data), newVersion := ("1.2.4".data),
            bumpType := ("patch".data),
            updatedFiles := [("version.go".data), ("b.txt".data)] } ∧
    fsRead (Run agreeWorld ("version.go".data) ("patch".data) [] [("b.txt".data)]).1
      ("b.txt".data) = some ("no version here".data) :=
  ⟨rfl, rfl, rfl, rfl, rfl⟩

/-- C9 (amended): provided the version file exists, `DryRun` leaves the
world unchanged (no filesystem writes, no git operations), and whenever
both `Run` and `DryRun` succeed they report the same old version, new
version and bump type.  (When the version file is missing, both paths
write it; and `DryRun`'s updated-file list is an over-approximation of
`Run`'s — it lists every existing bump file, even those `Run` will skip
for lack of a semver match.) -/
theorem dryRun_frame_and_agreement (w : World) (versionFilePath versionArg : Str)
    (extraFiles bumpFiles : List Str) (content : Str)
    (hfile : fsRead w versionFilePath = some content) :
    (DryRun w versionFilePath versionArg bumpFiles).1 = w ∧
    (∀ metaR metaD,
      (Run w versionFilePath versionArg extraFiles bumpFiles).2 = .ok metaR →
      (DryRun w versionFilePath versionArg bumpFiles).2 = .ok metaD →
      metaR.oldVersion = metaD.oldVersion ∧
      metaR.newVersion = metaD.newVersion ∧
      metaR.bumpType = metaD.bumpType) := by
  have hread : readCurrentVersion w versionFilePath =
      (w, match extractVersion content with
          | some v => Except.ok v
          | none => Except.error ("failed to find version string in file".data)) := by
    unfold readCurrentVersion
    rw [hfile]
    show (match extractVersion content with
          | some v => (w, Except.ok v)
          | none => (w, Except.error ("failed to find version string in file".data))) = _
    cases extractVersion content <;> rfl
  constructor
  · unfold DryRun
    rw [hread]
    cases hx : extractVersion content with
    | none => rfl
    | some cur =>
      simp only []
      cases hy : dryRunComputeVersion w versionFilePath versionArg (normalizeVersion cur) with
      | error e => rfl
      | ok nv =>
        split
        · rfl
        · split <;> rfl
  · intro metaR metaD hR hD
    have hg : checkGit w = .ok () := by
      cases hga : w.gitAvailable
      · exfalso
        have hcg : checkGit w = .error ("git is not available on the system".data) := by
          simp [checkGit, hga]
        unfold Run at hR
        rw [hcg] at hR
        simp at hR
      · simp [checkGit, hga]
    unfold Run at hR
    unfold DryRun at hD
    rw [hg, hread] at hR
    rw [hread] at hD
    simp only [] at hR hD
    cases hx : extractVersion content with
    | none =>
      rw [hx] at hD
      simp at hD
    | some cur =>
      rw [hx] at hR hD
      simp only [] at hR hD
      have hcmp : dryRunComputeVersion w versionFilePath versionArg
          (normalizeVersion cur) =
          runComputeVersion w versionFilePath versionArg (normalizeVersion cur) := rfl
      rw [hcmp] at hD
      cases hy : runComputeVersion w versionFilePath versionArg (normalizeVersion cur) with
      | error e =>
        rw [hy] at hD
        simp at hD
      | ok nv =>
        rw [hy] at hR hD
        simp only [] at hR hD
        by_cases hz : nv.1 = cur
        · rw [if_pos hz] at hD
          simp at hD
        · rw [if_neg hz] at hR hD
          simp only [] at hD
          simp only [Except.ok.injEq] at hD
          subst hD
          cases hdet : runDetectModule w versionFilePath nv.2 with
          | error e =>
            rw [hdet] at hR
            simp at hR
          | ok modInfo =>
            rw [hdet] at hR
            simp only [] at hR
            cases modInfo with
            | none =>
              cases hchk : checkUncommittedFiles w (extraFiles ++ [versionFilePath] ++ []) with
              | error e =>
                rw [hchk] at hR
                simp at hR
              | ok u =>
                rw [hchk] at hR
                simp only [] at hR
                have hm := runFinish_meta _ _ _ _ _ _ _ _ _ hR
                refine ⟨?_, ?_, ?_⟩ <;> simp [hm.1, hm.2.1, hm.2.2]
            | some md =>
              cases hchk : checkUncommittedFiles w (extraFiles ++ [versionFilePath] ++
                  [goJoinPath md.1 ("go.mod".data)]) with
              | error e =>
                rw [hchk] at hR
                simp at hR
              | ok u =>
                rw [hchk] at hR
                simp only [] at hR
                cases hug : updateGoMod (writeVersionFile w versionFilePath nv.1) md.1 nv.1 with
                | mk w3 exc =>
                  rw [hug] at hR
                  cases exc with
                  | error e => simp at hR
                  | ok u2 =>
                    simp only [] at hR
                    cases hrd : fsRead w3 (goJoinPath md.1 ("go.mod".data)) with
                    | none =>
                      rw [hrd] at hR
                      simp at hR
                    | some data2 =>
                      rw [hrd] at hR
                      simp only [] at hR
                      cases hpm : w3.parseModPath data2 with
                      | none =>
                        rw [hpm] at hR
                        simp at hR
                      | some newModPath =>
                        rw [hpm] at hR
                        simp only [] at hR
                        have hm := runFinish_meta _ _ _ _ _ _ _ _ _ hR
                        refine ⟨?_, ?_, ?_⟩ <;> simp [hm.1, hm.2.1, hm.2.2]

/-- C9 witness: the frame half of the amended theorem at the clean
concrete world. -/
theorem dryRun_frame_and_agreement_witness :
    fsRead agreeWorld ("version.go".data) =
      some (versionFileTemplate ("version".data) ("1.2.3".data)) ∧
    (DryRun agreeWorld ("version.go".data) ("patch".data) [("b.txt".data)]).1 =
      agreeWorld :=
  ⟨rfl,
   (dryRun_frame_and_agreement agreeWorld ("version.go".data) ("patch".data) []
     [("b.txt".data)] (versionFileTemplate ("version".data) ("1.2.3".data)) rfl).1⟩

/-- C2 witness: concrete evaluations of the directive behaviour at
`v1.2.3-rc.1`. -/
theorem bumpVersion_directives_witness :
    parseSemVer ("v1.2.3-rc.1".data) = .ok (1, 2, 3, ("rc.1".data)) ∧
    bumpVersion ("v1.2.3-rc.1".data) ("major".data) = .ok (formatSemVer 2 0 0 []) ∧
    bumpVersion ("v1.2.3-rc.1".data) ("prerelease".data) =
      .ok (formatSemVer 1 2 3 (goJoinSep '.' ([("rc".data)] ++ [intToStr 2]))) := by
  have h : parseSemVer ("v1.2.3-rc.1".data) = .ok (1, 2, 3, ("rc.1".data)) := by rfl
  have hb := bumpVersion_directives ("v1.2.3-rc.1".data) 1 2 3 ("rc.1".data) h
    (by decide) (by decide) (by decide)
  refine ⟨h, ?_, ?_⟩
  · have := hb.1
    simpa using this
  · have hseg := (hb.2.2.2.2.2.2.2 (by simp) [("rc".data)] ("1".data) (by rfl)).1 1
      (by rfl) (by decide)
    simpa using hseg

end GoVersion
